import Mathlib

/-!
# Verification of the Minesweeper board engine

A shallow embedding in Lean 4 of the Minesweeper board/game-rules engine
(`src/board.rs` and the win-detection scan of `src/gui_board.rs`), together
with proofs and refutations of the specification's claims about it.

Modelling conventions:
* `Vec<Vec<T>>` grids become `List (List T)`; `get`/`get_mut` bounds-checked
  access becomes `Option`-valued lookup (`getMat?`) and a bounds-respecting
  update (`setMat`) that is a no-op out of bounds, exactly like a failed
  `get_mut`.
* `HashSet<(usize,usize)>` becomes `Finset (Nat × Nat)`.
* The random shuffle of `place_mines_avoiding` is modelled by passing the
  shuffled list explicitly; theorems quantify over every permutation of the
  eligible-position list, i.e. over every outcome of the shuffle.
* Direct indexing `v[i]` (which panics when out of bounds in Rust) is
  modelled by `Option`-propagation at the one reachable out-of-bounds site
  (the `visited[row][col] = true` seed write of `flood_fill_wave`, whose
  failure is surfaced as `none` = panic) and by defaulted reads at sites
  that are provably in bounds.
-/

/-- Cell content (`enum Cell` in `board.rs`): a mine, a positive
adjacent-mine count, or empty.  The `u8` payload of `Number` is modelled as
`Nat`; every value the engine ever stores is at most 8. -/
inductive Cell where
  | Mine : Cell
  | Number : Nat → Cell
  | Empty : Cell
deriving DecidableEq, Repr

/-- Player-visible cell state (`enum CellState` in `board.rs`). -/
inductive CellState where
  | Covered : CellState
  | Uncovered : CellState
  | Flagged : CellState
deriving DecidableEq, Repr

/-- Board-size presets (`enum BoardSize` in `board.rs`). -/
inductive BoardSize where
  | Small : BoardSize
  | Medium : BoardSize
  | Large : BoardSize
deriving DecidableEq, Repr

/-- `BoardSize::params`: the (width, height, mines) triple of each preset. -/
def BoardSize.params : BoardSize → Nat × Nat × Nat
  | BoardSize.Small => (8, 8, 10)
  | BoardSize.Medium => (16, 16, 40)
  | BoardSize.Large => (24, 24, 99)

/-- `BoardSize::board_size_from_params`: recover a preset from a
(width, height, mines) triple, falling back to `Small` on anything
unrecognised. -/
def board_size_from_params (width height mines : Nat) : BoardSize :=
  if (width, height, mines) = (8, 8, 10) then BoardSize.Small
  else if (width, height, mines) = (16, 16, 40) then BoardSize.Medium
  else if (width, height, mines) = (24, 24, 99) then BoardSize.Large
  else BoardSize.Small

/-- Bounds-checked read of a grid entry: `m.get(r).and_then(|row| row.get(c))`. -/
def getMat? {α : Type} (m : List (List α)) (r c : Nat) : Option α :=
  m[r]?.bind (fun rowL => rowL[c]?)

/-- Bounds-respecting write of a grid entry: the effect of writing through
`m.get_mut(r).and_then(|row| row.get_mut(c))`, a no-op when either index is
out of bounds. -/
def setMat {α : Type} (m : List (List α)) (r c : Nat) (v : α) : List (List α) :=
  match m[r]? with
  | none => m
  | some rowL => m.set r (rowL.set c v)

/-- The Minesweeper board (`struct Board` in `board.rs`). -/
structure Board where
  width : Nat
  height : Nat
  mines : Nat
  cells : List (List Cell)
  states : List (List CellState)
  minePositions : Finset (Nat × Nat)
deriving DecidableEq

namespace Board

/-- `Board::new`: a width×height grid of `Empty` cells, all `Covered`, with
an empty mine index. -/
def new (width height mines : Nat) : Board :=
  { width := width
    height := height
    mines := mines
    cells := List.replicate height (List.replicate width Cell.Empty)
    states := List.replicate height (List.replicate width CellState.Covered)
    minePositions := ∅ }

/-- `Board::cell`: the content at a position, `none` when out of bounds. -/
def cell (b : Board) (row col : Nat) : Option Cell :=
  getMat? b.cells row col

/-- `Board::cell_state`: the state at a position, `none` when out of bounds. -/
def cell_state (b : Board) (row col : Nat) : Option CellState :=
  getMat? b.states row col

/-- `Board::flag_cell`: set the state to `Flagged` when the position is
valid (regardless of the current state). -/
def flag_cell (b : Board) (row col : Nat) : Board :=
  { b with states := setMat b.states row col CellState.Flagged }

/-- `Board::unflag_cell`: revert `Flagged` to `Covered`; no-op otherwise. -/
def unflag_cell (b : Board) (row col : Nat) : Board :=
  match getMat? b.states row col with
  | some CellState.Flagged =>
      { b with states := setMat b.states row col CellState.Covered }
  | _ => b

/-- `Board::uncover_cell`: set the state to `Uncovered` when the position is
valid. -/
def uncover_cell (b : Board) (row col : Nat) : Board :=
  { b with states := setMat b.states row col CellState.Uncovered }

/-- Row-major list of all coordinates of a height×width grid, as produced
by the nested `for row in 0..height { for col in 0..width { .. } }` loops. -/
def allCoords (height width : Nat) : List (Nat × Nat) :=
  (List.range height).flatMap (fun r => (List.range width).map (fun c => (r, c)))

/-- The `positions` list built by `place_mines_avoiding`: every coordinate
of the grid except the avoided cell and its Chebyshev-distance-≤1
neighbors (the `continue` branch of the loop). -/
def eligiblePositions (b : Board) (avoidRow avoidCol : Nat) : List (Nat × Nat) :=
  (allCoords b.height b.width).filter fun p =>
    decide (¬ (((p.1 : Int) - (avoidRow : Int)).natAbs ≤ 1 ∧
               ((p.2 : Int) - (avoidCol : Int)).natAbs ≤ 1))

/-- One iteration of the placement loop of `place_mines_avoiding`:
`self.cells[row][col] = Cell::Mine; self.mine_positions.insert((row, col))`. -/
def placeOne (b : Board) (p : Nat × Nat) : Board :=
  { b with cells := setMat b.cells p.1 p.2 Cell.Mine
           minePositions := insert p b.minePositions }

/-- `Board::place_mines_avoiding`, with the outcome of
`positions.shuffle(&mut rng)` passed explicitly as `shuffled`: clear the
mine index, then place a mine at each of the first `mines` shuffled
positions.  Theorems quantify over every permutation of
`eligiblePositions`, i.e. over every outcome of the shuffle. -/
def place_mines_avoiding (b : Board) (shuffled : List (Nat × Nat)) : Board :=
  (shuffled.take b.mines).foldl placeOne { b with minePositions := ∅ }

/-- `Board::neighbors` as a function of the grid dimensions: the valid
in-bounds coordinates among the 8 surrounding `(row, col)`, produced by the
`(-1..=1).flat_map(.. (-1..=1).filter_map(..))` nest in source order. -/
def neighborsOf (height width row col : Nat) : List (Nat × Nat) :=
  ([-1, 0, 1] : List Int).flatMap fun dr =>
    ([-1, 0, 1] : List Int).filterMap fun dc =>
      if dr = 0 ∧ dc = 0 then none
      else
        let nr : Int := (row : Int) + dr
        let nc : Int := (col : Int) + dc
        if 0 ≤ nr ∧ nr < (height : Int) ∧ 0 ≤ nc ∧ nc < (width : Int) then
          some (nr.toNat, nc.toNat)
        else none

/-- `Board::neighbors`. -/
def neighbors (b : Board) (row col : Nat) : List (Nat × Nat) :=
  neighborsOf b.height b.width row col

/-- `Cell::Number(count as u8)` when the count is positive, `Cell::Empty`
otherwise; the `u8` cast is the reduction modulo 2^8 (always lossless here
since a cell has at most 8 neighbors). -/
def numberize (count : Nat) : Cell :=
  if count = 0 then Cell.Empty else Cell.Number (count % 256)

/-- The adjacent-mine count of `calculate_numbers`:
`self.neighbors(row, col).filter(.. == Cell::Mine).count()`. -/
def adjMines (b : Board) (row col : Nat) : Nat :=
  ((b.neighbors row col).filter fun p =>
    decide (getMat? b.cells p.1 p.2 = some Cell.Mine)).length

/-- The body of the `calculate_numbers` loop at one coordinate: skip mines
(`if let Cell::Mine = .. continue`), otherwise count adjacent mines and
overwrite the cell content. -/
def calcCell (b : Board) (row col : Nat) : Board :=
  if getMat? b.cells row col = some Cell.Mine then b
  else { b with cells := setMat b.cells row col (numberize (adjMines b row col)) }

/-- `Board::calculate_numbers`: the row-major nested loop over the grid. -/
def calculate_numbers (b : Board) : Board :=
  (allCoords b.height b.width).foldl (fun bb p => calcCell bb p.1 p.2) b

/-- Read of `self.states[r][c]` at a provably in-bounds coordinate
(defaulted out of bounds; every use is under an in-bounds invariant). -/
def getSD (b : Board) (r c : Nat) : CellState :=
  (getMat? b.states r c).getD CellState.Covered

/-- Read of `self.cells[r][c]` at a provably in-bounds coordinate. -/
def getCD (b : Board) (r c : Nat) : Cell :=
  (getMat? b.cells r c).getD Cell.Empty

/-- One neighbor-enqueue step of the flood fill: `if !visited[nr][nc] &&
self.states[nr][nc] == CellState::Covered { queue.push_back(..); 
visited[nr][nc] = true; }` over the running (visited, queue) pair. -/
def enqStep (b2 : Board) (dist : Nat)
    (vq : List (List Bool) × List (Nat × Nat × Nat)) (p : Nat × Nat) :
    List (List Bool) × List (Nat × Nat × Nat) :=
  if (getMat? vq.1 p.1 p.2).getD true = false ∧
     getSD b2 p.1 p.2 = CellState.Covered then
    (setMat vq.1 p.1 p.2 true, vq.2 ++ [(p.1, p.2, dist + 1)])
  else vq

/-- The BFS loop of `flood_fill_wave`, with explicit fuel (the Rust loop
terminates because every enqueue marks a fresh cell visited; the fuel
`height*width + 1` provably dominates the number of iterations).
State: current board, `visited` grid, FIFO queue (head = front), and the
`revealed` accumulator. -/
def floodLoop : Nat → Board → List (List Bool) → List (Nat × Nat × Nat) →
    List (Nat × Nat × Nat) → Board × List (Nat × Nat × Nat)
  | 0, b, _, _, revealed => (b, revealed)
  | _ + 1, b, _, [], revealed => (b, revealed)
  | fuel + 1, b, visited, (r, c, dist) :: queue, revealed =>
      if getSD b r c = CellState.Uncovered then
        floodLoop fuel b visited queue revealed
      else
        let b2 : Board := { b with states := setMat b.states r c CellState.Uncovered }
        let revealed2 := revealed ++ [(r, c, dist)]
        if getCD b2 r c = Cell.Empty then
          let step := (neighborsOf b2.height b2.width r c).foldl
            (enqStep b2 dist) (visited, queue)
          floodLoop fuel b2 step.1 step.2 revealed2
        else
          floodLoop fuel b2 visited queue revealed2

/-- `Board::flood_fill_wave`.  The result is `none` exactly when the Rust
function panics: the seed write `visited[row][col] = true` indexes the
freshly allocated height×width `visited` grid directly, so an out-of-bounds
start coordinate aborts.  Otherwise the BFS runs to completion and yields
the final board and the `revealed` list of `(row, col, distance)` triples. -/
def flood_fill_wave (b : Board) (row col : Nat) :
    Option (Board × List (Nat × Nat × Nat)) :=
  if row < b.height ∧ col < b.width then
    some (floodLoop (b.height * b.width + 1) b
      (setMat (List.replicate b.height (List.replicate b.width false)) row col true)
      [(row, col, 0)] [])
  else none

/-- Number of cells whose content is `Mine` (the full-grid count used by
the mine-count invariant and the repository's tests). -/
def mineCount (b : Board) : Nat :=
  ((Finset.range b.height ×ˢ Finset.range b.width).filter
    (fun p => b.cell p.1 p.2 = some Cell.Mine)).card

/-- The mine-index invariant: a coordinate is in `mine_positions` iff the
cell content there is `Mine`. -/
def mineIndexInv (b : Board) : Prop :=
  ∀ p : Nat × Nat, p ∈ b.minePositions ↔ b.cell p.1 p.2 = some Cell.Mine

/-- Well-formedness of the grids: the `Vec<Vec<_>>` fields really are
height×width.  Every board reachable through the engine API satisfies
this. -/
def WF (b : Board) : Prop :=
  b.cells.length = b.height ∧ (∀ rowL ∈ b.cells, rowL.length = b.width) ∧
  b.states.length = b.height ∧ (∀ rowL ∈ b.states, rowL.length = b.width)

instance (b : Board) : Decidable b.WF := by
  unfold WF
  infer_instance

end Board

/-- Game phase (`enum GameState` in `gui.rs`). -/
inductive GameState where
  | NotStarted : GameState
  | Running : GameState
  | GameOver : GameState
  | Won : GameState
  | Lost : GameState
deriving DecidableEq, Repr

/-- The full-grid scan of `MinesweeperApp::check_win` (`gui_board.rs`): the
early `return` fires as soon as some cell has non-mine content and
non-uncovered state; reaching the end of both loops means no such cell
exists, and only then is the game state set to `Won` (sound and confetti
are presentation effects outside the model). -/
def check_win (state : GameState) (b : Board) : GameState :=
  if (List.range b.height).all (fun row =>
       (List.range b.width).all (fun col =>
         !(decide (b.cell row col ≠ some Cell.Mine) &&
           decide (b.cell_state row col ≠ some CellState.Uncovered))))
  then GameState.Won else state

/-- The offset-to-neighbor function applied by `neighbors` to each
`(dr, dc)` pair: reject the center, keep in-bounds coordinates. -/
def nbStep (height width row col : Nat) (q : Int × Int) : Option (Nat × Nat) :=
  if q.1 = 0 ∧ q.2 = 0 then none
  else
    if 0 ≤ (row : Int) + q.1 ∧ (row : Int) + q.1 < (height : Int) ∧
       0 ≤ (col : Int) + q.2 ∧ (col : Int) + q.2 < (width : Int) then
      some (((row : Int) + q.1).toNat, ((col : Int) + q.2).toNat)
    else none

/-- The specification-side adjacent-mine count: the number of in-bounds
grid cells distinct from `(row, col)`, within Chebyshev distance 1 of it,
whose content is `Mine`. -/
def mineNeighborCount (b : Board) (row col : Nat) : Nat :=
  ((Finset.range b.height ×ˢ Finset.range b.width).filter
    (fun p => ¬ (p.1 = row ∧ p.2 = col) ∧
      ((p.1 : Int) - (row : Int)).natAbs ≤ 1 ∧
      ((p.2 : Int) - (col : Int)).natAbs ≤ 1 ∧
      b.cell p.1 p.2 = some Cell.Mine)).card

/-- The board coordinate of a `(row, col, distance)` reveal triple. -/
def coordOf (t : Nat × Nat × Nat) : Nat × Nat := (t.1, t.2.1)

/-- Number of not-yet-visited entries of the BFS `visited` grid; the
termination measure of the flood-fill loop. -/
def falseCount (height width : Nat) (vis : List (List Bool)) : Nat :=
  ((Finset.range height ×ˢ Finset.range width).filter
    (fun p => getMat? vis p.1 p.2 = some false)).card

/-- The winning condition as the specification words it: every cell whose
content is not `Mine` has state `Uncovered`. -/
def allSafeUncovered (b : Board) : Prop :=
  ∀ row col, row < b.height → col < b.width →
    b.cell row col ≠ some Cell.Mine →
    b.cell_state row col = some CellState.Uncovered


section MatLemmas

variable {α : Type}

theorem isSome_getElemQ {l : List α} {i : Nat} :
    l[i]?.isSome ↔ i < l.length := by
  constructor
  · intro h
    by_contra hlt
    push_neg at hlt
    rw [List.getElem?_eq_none hlt] at h
    simp at h
  · intro h
    rw [List.getElem?_eq_getElem h]
    rfl

theorem getMat?_isSome_iff {m : List (List α)} {r c : Nat} :
    (getMat? m r c).isSome ↔
      ∃ rowL, m[r]? = some rowL ∧ c < rowL.length := by
  unfold getMat?
  cases h : m[r]? with
  | none => simp
  | some rowL => simp [isSome_getElemQ]

theorem setMat_oob {m : List (List α)} {r c : Nat} {v : α}
    (h : getMat? m r c = none) : setMat m r c v = m := by
  unfold setMat
  cases hr : m[r]? with
  | none => rfl
  | some rowL =>
      have hc : rowL[c]? = none := by
        unfold getMat? at h
        rw [hr] at h
        simpa using h
      have hlen : rowL.length ≤ c := by
        by_contra hlt
        push_neg at hlt
        rw [List.getElem?_eq_getElem hlt] at hc
        simp at hc
      have hset : rowL.set c v = rowL := List.set_eq_of_length_le hlen
      show m.set r (rowL.set c v) = m
      rw [hset]
      apply List.ext_getElem?
      intro n
      rw [List.getElem?_set]
      rcases eq_or_ne r n with rfl | hne
      · have hrl : r < m.length := by
          by_contra hge
          push_neg at hge
          rw [List.getElem?_eq_none hge] at hr
          simp at hr
        simp [hrl, hr.symm]
      · simp [hne]

theorem getMat?_setMat (m : List (List α)) (r c : Nat) (v : α) (r' c' : Nat) :
    getMat? (setMat m r c v) r' c' =
      if r = r' ∧ c = c' ∧ (getMat? m r c).isSome
      then some v else getMat? m r' c' := by
  by_cases hs : (getMat? m r c).isSome
  · obtain ⟨rowL, hr, hc⟩ := getMat?_isSome_iff.mp hs
    have hrl : r < m.length := by
      by_contra hge
      push_neg at hge
      rw [List.getElem?_eq_none hge] at hr
      simp at hr
    have hset : setMat m r c v = m.set r (rowL.set c v) := by
      unfold setMat
      rw [hr]
    rw [hset]
    unfold getMat?
    rw [List.getElem?_set]
    rcases eq_or_ne r r' with rfl | hner
    · simp only [if_pos rfl, hrl, if_pos, Option.some_bind]
      rw [List.getElem?_set]
      rcases eq_or_ne c c' with rfl | hnec
      · simp [hr, isSome_getElemQ, hc]
      · simp [hnec, hr]
    · simp [hner, hs]
  · rw [setMat_oob (Option.not_isSome_iff_eq_none.mp hs)]
    simp [hs]

theorem setMat_setMat (m : List (List α)) (r c : Nat) (v w : α) :
    setMat (setMat m r c v) r c w = setMat m r c w := by
  unfold setMat
  cases hr : m[r]? with
  | none => rw [hr]
  | some rowL =>
      have hrl : r < m.length := by
        by_contra hge
        push_neg at hge
        rw [List.getElem?_eq_none hge] at hr
        simp at hr
      have h1 : (m.set r (rowL.set c v))[r]? = some (rowL.set c v) := by
        rw [List.getElem?_set]
        simp [hrl]
      rw [h1]
      show (m.set r (rowL.set c v)).set r ((rowL.set c v).set c w) = m.set r (rowL.set c w)
      rw [List.set_set, List.set_set]

theorem length_setMat (m : List (List α)) (r c : Nat) (v : α) :
    (setMat m r c v).length = m.length := by
  unfold setMat
  cases m[r]? with
  | none => rfl
  | some rowL => simp

theorem mem_setMat_length {k : Nat} {m : List (List α)} {r c : Nat} {v : α}
    (hw : ∀ rowL ∈ m, rowL.length = k) :
    ∀ rowL ∈ setMat m r c v, rowL.length = k := by
  unfold setMat
  cases hr : m[r]? with
  | none => exact hw
  | some rowL =>
      intro rowL' hmem
      rcases List.mem_or_eq_of_mem_set hmem with h | rfl
      · exact hw _ h
      · rw [List.length_set]
        exact hw _ (List.getElem?_mem hr)

end MatLemmas

namespace Board

theorem WF_new (width height mines : Nat) : (new width height mines).WF := by
  refine ⟨by simp [new], ?_, by simp [new], ?_⟩ <;>
    · intro rowL hmem
      simp only [new] at hmem
      rw [List.eq_of_mem_replicate hmem]
      simp [new]

theorem cell_new (width height mines row col : Nat)
    (hr : row < height) (hc : col < width) :
    (new width height mines).cell row col = some Cell.Empty := by
  unfold cell getMat? new
  simp [List.getElem?_replicate, hr, hc]

theorem cell_state_new (width height mines row col : Nat)
    (hr : row < height) (hc : col < width) :
    (new width height mines).cell_state row col = some CellState.Covered := by
  unfold cell_state getMat? new
  simp [List.getElem?_replicate, hr, hc]

end Board

section FlagLemmas

/-- `unflag_cell` rewritten as a conditional. -/
theorem unflag_cell_eq (b : Board) (r c : Nat) :
    b.unflag_cell r c =
      if getMat? b.states r c = some CellState.Flagged
      then { b with states := setMat b.states r c CellState.Covered }
      else b := by
  unfold Board.unflag_cell
  split_ifs with h
  · rw [h]
  · cases hs : getMat? b.states r c with
    | none => rfl
    | some s =>
        cases s with
        | Covered => rfl
        | Uncovered => rfl
        | Flagged => exact absurd hs h

theorem cell_state_flag_cell (b : Board) (r c : Nat)
    (h : (b.cell_state r c).isSome) :
    (b.flag_cell r c).cell_state r c = some CellState.Flagged := by
  unfold Board.flag_cell Board.cell_state
  show getMat? (setMat b.states r c CellState.Flagged) r c = _
  rw [getMat?_setMat]
  exact if_pos ⟨rfl, rfl, h⟩

theorem cell_state_isSome_flag (b : Board) (r c : Nat) {s : CellState}
    (h : b.cell_state r c = some s) : (b.cell_state r c).isSome := by
  rw [h]
  rfl

end FlagLemmas

/-- C10: `flag_cell` and `unflag_cell` are idempotent on every board and
coordinate — flagging twice equals flagging once (a Covered cell ends
Flagged), unflagging twice equals unflagging once (a Flagged cell ends
Covered). -/
theorem flag_unflag_idempotent (b : Board) (r c : Nat) :
    (b.flag_cell r c).flag_cell r c = b.flag_cell r c ∧
    (b.unflag_cell r c).unflag_cell r c = b.unflag_cell r c ∧
    (b.cell_state r c = some CellState.Covered →
      (b.flag_cell r c).cell_state r c = some CellState.Flagged) ∧
    (b.cell_state r c = some CellState.Flagged →
      (b.unflag_cell r c).cell_state r c = some CellState.Covered) := by
  refine ⟨?_, ?_, ?_, ?_⟩
  · unfold Board.flag_cell
    simp [setMat_setMat]
  · rw [unflag_cell_eq b r c]
    split_ifs with h
    · rw [unflag_cell_eq]
      have hs : (getMat? b.states r c).isSome := by rw [h]; rfl
      have h2 : getMat? (setMat b.states r c CellState.Covered) r c =
          some CellState.Covered := by
        rw [getMat?_setMat]
        exact if_pos ⟨rfl, rfl, hs⟩
      simp only [h2]
      rw [if_neg]
      simp
    · rw [unflag_cell_eq, if_neg h]
  · intro h
    exact cell_state_flag_cell b r c (cell_state_isSome_flag b r c h)
  · intro h
    have h' : getMat? b.states r c = some CellState.Flagged := h
    have hs : (getMat? b.states r c).isSome := by
      rw [h']
      rfl
    rw [unflag_cell_eq, if_pos h']
    unfold Board.cell_state
    show getMat? (setMat b.states r c CellState.Covered) r c = _
    rw [getMat?_setMat]
    exact if_pos ⟨rfl, rfl, hs⟩

/-- Witness for C10 at a concrete board: a Covered cell flagged twice ends
Flagged, and a Flagged cell unflagged twice ends Covered. -/
theorem flag_unflag_idempotent_witness :
    ((Board.new 2 2 0).flag_cell 0 0).cell_state 0 0 = some CellState.Flagged ∧
    (((Board.new 2 2 0).flag_cell 0 0).unflag_cell 0 0).cell_state 0 0 =
      some CellState.Covered :=
  ⟨(flag_unflag_idempotent (Board.new 2 2 0) 0 0).2.2.1 (by decide),
   (flag_unflag_idempotent ((Board.new 2 2 0).flag_cell 0 0) 0 0).2.2.2 (by decide)⟩

/-- C9: the preset mapping round-trips — `board_size_from_params` applied to
the parameter triple of each `BoardSize` returns that size — and every
other triple falls back to `Small`. -/
theorem preset_round_trip :
    (∀ s : BoardSize,
        board_size_from_params s.params.1 s.params.2.1 s.params.2.2 = s) ∧
    (∀ w h m : Nat, (w, h, m) ≠ (8, 8, 10) → (w, h, m) ≠ (16, 16, 40) →
        (w, h, m) ≠ (24, 24, 99) → board_size_from_params w h m = BoardSize.Small) := by
  constructor
  · intro s
    cases s <;> rfl
  · intro w h m h1 h2 h3
    unfold board_size_from_params
    rw [if_neg h1, if_neg h2, if_neg h3]

/-- Witness for C9: the fallback branch at the non-preset triple (5,7,3). -/
theorem preset_round_trip_witness :
    board_size_from_params 5 7 3 = BoardSize.Small :=
  preset_round_trip.2 5 7 3 (by decide) (by decide) (by decide)

/-- C8 counterexample: on a 1×1 board whose unique cell is Uncovered,
`flag_cell` is not a no-op — it turns the Uncovered cell into a Flagged
one. -/
theorem flag_on_uncovered_changes_board :
    ((Board.new 1 1 0).uncover_cell 0 0).flag_cell 0 0 ≠
      (Board.new 1 1 0).uncover_cell 0 0 := by
  intro h
  have := congrArg (fun bb => bb.cell_state 0 0) h
  simp only at this
  rw [cell_state_flag_cell] at this
  · exact CellState.noConfusion (Option.some.inj this)
  · rw [show ((Board.new 1 1 0).uncover_cell 0 0).cell_state 0 0 =
        some CellState.Uncovered from by decide]
    rfl

/-- C8 (amended): `flag_cell` on an in-bounds Uncovered cell is not a no-op;
it sets that cell's state to Flagged while leaving every other coordinate's
state, the contents, the mine index and the dimensions unchanged. -/
theorem flag_cell_on_uncovered (b : Board) (r c : Nat)
    (h : b.cell_state r c = some CellState.Uncovered) :
    (b.flag_cell r c).cell_state r c = some CellState.Flagged ∧
    (∀ r' c', (r', c') ≠ (r, c) →
      (b.flag_cell r c).cell_state r' c' = b.cell_state r' c') ∧
    (b.flag_cell r c).cells = b.cells ∧
    (b.flag_cell r c).minePositions = b.minePositions ∧
    (b.flag_cell r c).width = b.width ∧
    (b.flag_cell r c).height = b.height := by
  refine ⟨cell_state_flag_cell b r c (cell_state_isSome_flag b r c h),
    ?_, rfl, rfl, rfl, rfl⟩
  intro r' c' hne
  unfold Board.flag_cell Board.cell_state
  show getMat? (setMat b.states r c CellState.Flagged) r' c' = getMat? b.states r' c'
  rw [getMat?_setMat]
  rw [if_neg]
  rintro ⟨rfl, rfl, -⟩
  exact hne rfl

/-- Witness for C8's amended theorem on a concrete 2×2 board. -/
theorem flag_cell_on_uncovered_witness :
    (((Board.new 2 2 0).uncover_cell 1 1).flag_cell 1 1).cell_state 1 1 =
      some CellState.Flagged :=
  (flag_cell_on_uncovered ((Board.new 2 2 0).uncover_cell 1 1) 1 1 (by decide)).1

/-- The early-return scan of `check_win` succeeds on every cell exactly when
every non-mine cell is uncovered. -/
theorem scan_iff_allSafeUncovered (b : Board) :
    (((List.range b.height).all fun row =>
       (List.range b.width).all fun col =>
         !(decide (b.cell row col ≠ some Cell.Mine) &&
           decide (b.cell_state row col ≠ some CellState.Uncovered))) = true) ↔
      allSafeUncovered b := by
  unfold allSafeUncovered
  simp only [List.all_eq_true, List.mem_range, Bool.not_eq_true',
    Bool.and_eq_false_iff, decide_eq_false_iff_not, not_not]
  constructor
  · intro h row col hrow hcol hmine
    rcases h row hrow col hcol with h1 | h2
    · exact absurd h1 hmine
    · exact h2
  · intro h row hrow col hcol
    by_cases hm : b.cell row col = some Cell.Mine
    · exact Or.inl hm
    · exact Or.inr (h row col hrow hcol hm)

/-- C5: `check_win` transitions the game state to `Won` exactly when the
full-grid scan finds no cell that is non-mine in content and not Uncovered
in state; otherwise it leaves the game state unchanged. -/
theorem check_win_correct (s : GameState) (b : Board) :
    (allSafeUncovered b → check_win s b = GameState.Won) ∧
    (¬ allSafeUncovered b → check_win s b = s) := by
  unfold check_win
  constructor <;> intro h
  · rw [if_pos ((scan_iff_allSafeUncovered b).mpr h)]
  · rw [if_neg]
    intro hc
    exact h ((scan_iff_allSafeUncovered b).mp hc)

/-- Witness for C5: on a fully uncovered mine-free 1×1 board the scan
passes and `check_win` moves a Running game to `Won`. -/
theorem check_win_correct_witness :
    check_win GameState.Running ((Board.new 1 1 0).uncover_cell 0 0) =
      GameState.Won :=
  (check_win_correct GameState.Running ((Board.new 1 1 0).uncover_cell 0 0)).1
    (by
      intro row col hrow hcol hmine
      have hr : row < 1 := hrow
      have hc : col < 1 := hcol
      interval_cases row
      interval_cases col
      decide)

section PlacementLemmas

theorem allCoords_eq_product (height width : Nat) :
    Board.allCoords height width = (List.range height).product (List.range width) := rfl

theorem mem_allCoords {height width : Nat} {p : Nat × Nat} :
    p ∈ Board.allCoords height width ↔ p.1 < height ∧ p.2 < width := by
  rw [allCoords_eq_product]
  rcases p with ⟨r, c⟩
  rw [List.pair_mem_product]
  simp [List.mem_range]

theorem allCoords_nodup (height width : Nat) : (Board.allCoords height width).Nodup := by
  rw [allCoords_eq_product]
  exact (List.nodup_range height).product (List.nodup_range width)

theorem mem_eligiblePositions {b : Board} {ar ac : Nat} {p : Nat × Nat} :
    p ∈ Board.eligiblePositions b ar ac ↔
      p.1 < b.height ∧ p.2 < b.width ∧
      ¬ (((p.1 : Int) - (ar : Int)).natAbs ≤ 1 ∧
         ((p.2 : Int) - (ac : Int)).natAbs ≤ 1) := by
  unfold Board.eligiblePositions
  rw [List.mem_filter]
  simp only [mem_allCoords, decide_eq_true_eq, and_assoc]

theorem eligiblePositions_nodup (b : Board) (ar ac : Nat) :
    (Board.eligiblePositions b ar ac).Nodup :=
  (allCoords_nodup _ _).filter _

theorem foldl_placeOne_fields : ∀ (L : List (Nat × Nat)) (b : Board),
    (L.foldl Board.placeOne b).width = b.width ∧
    (L.foldl Board.placeOne b).height = b.height ∧
    (L.foldl Board.placeOne b).mines = b.mines ∧
    (L.foldl Board.placeOne b).states = b.states
  | [], _ => ⟨rfl, rfl, rfl, rfl⟩
  | p :: L, b => foldl_placeOne_fields L (Board.placeOne b p)

theorem foldl_placeOne_minePositions : ∀ (L : List (Nat × Nat)) (b : Board),
    (L.foldl Board.placeOne b).minePositions = b.minePositions ∪ L.toFinset
  | [], b => by simp
  | p :: L, b => by
      rw [List.foldl_cons, foldl_placeOne_minePositions L]
      show insert p b.minePositions ∪ L.toFinset = _
      rw [List.toFinset_cons, Finset.insert_union, Finset.union_insert]

theorem placeOne_cell (b : Board) (p : Nat × Nat) (r c : Nat) :
    (Board.placeOne b p).cell r c =
      if p = (r, c) ∧ (b.cell r c).isSome then some Cell.Mine else b.cell r c := by
  rcases p with ⟨pr, pc⟩
  show getMat? (setMat b.cells pr pc Cell.Mine) r c = _
  rw [getMat?_setMat]
  by_cases h1 : pr = r ∧ pc = c
  · rcases h1 with ⟨rfl, rfl⟩
    by_cases hs : (b.cell pr pc).isSome
    · rw [if_pos ⟨rfl, rfl, hs⟩, if_pos ⟨rfl, hs⟩]
    · rw [if_neg fun hcon => hs hcon.2.2, if_neg fun hcon => hs hcon.2]
      rfl
  · rw [if_neg fun hcon => h1 ⟨hcon.1, hcon.2.1⟩,
        if_neg fun hcon => h1 (by rw [Prod.mk.injEq] at hcon; exact hcon.1)]
    rfl

theorem foldl_placeOne_cell (L : List (Nat × Nat)) (b : Board) (r c : Nat) :
    (L.foldl Board.placeOne b).cell r c =
      if (r, c) ∈ L ∧ (b.cell r c).isSome then some Cell.Mine else b.cell r c := by
  induction L generalizing b with
  | nil => simp
  | cons p L ih =>
      rw [List.foldl_cons, ih]
      have hIsSome : ((Board.placeOne b p).cell r c).isSome = (b.cell r c).isSome := by
        rw [placeOne_cell]
        split_ifs with h
        · rw [h.2]
          rfl
        · rfl
      rw [hIsSome, placeOne_cell]
      by_cases hs : (b.cell r c).isSome
      · by_cases hp : p = (r, c)
        · by_cases hm : (r, c) ∈ L
          · simp [hp, hs, hm]
          · simp [hp, hs, hm]
        · by_cases hm : (r, c) ∈ L
          · simp [hp, hs, hm]
          · simp [hp, hs, hm, Ne.symm hp]
      · simp [hs]

/-- On a well-formed board every in-bounds coordinate has a present cell. -/
theorem WF_isSome_cell {b : Board} (hWF : b.WF) {r c : Nat}
    (hr : r < b.height) (hc : c < b.width) : (b.cell r c).isSome := by
  rcases hWF with ⟨hl, hw, -, -⟩
  apply getMat?_isSome_iff.mpr
  have hrl : r < b.cells.length := by
    rw [hl]
    exact hr
  refine ⟨b.cells[r], List.getElem?_eq_getElem hrl, ?_⟩
  rw [hw _ (List.getElem_mem hrl)]
  exact hc

/-- On a well-formed board every in-bounds coordinate has a present state. -/
theorem WF_isSome_state {b : Board} (hWF : b.WF) {r c : Nat}
    (hr : r < b.height) (hc : c < b.width) : (b.cell_state r c).isSome := by
  rcases hWF with ⟨-, -, hl, hw⟩
  apply getMat?_isSome_iff.mpr
  have hrl : r < b.states.length := by
    rw [hl]
    exact hr
  refine ⟨b.states[r], List.getElem?_eq_getElem hrl, ?_⟩
  rw [hw _ (List.getElem_mem hrl)]
  exact hc

/-- Characterisation of one `place_mines_avoiding` call: a cell is a mine
afterwards iff it is among the first `mines` shuffled positions or was
already a mine, and the fresh mine index is exactly the set of the first
`mines` shuffled positions. -/
theorem place_mines_spec (b : Board) (hWF : b.WF) (ar ac : Nat)
    (shuffled : List (Nat × Nat))
    (hperm : shuffled.Perm (Board.eligiblePositions b ar ac)) (p : Nat × Nat) :
    ((b.place_mines_avoiding shuffled).cell p.1 p.2 = some Cell.Mine ↔
      p ∈ shuffled.take b.mines ∨ b.cell p.1 p.2 = some Cell.Mine) ∧
    (p ∈ (b.place_mines_avoiding shuffled).minePositions ↔
      p ∈ shuffled.take b.mines) := by
  have hbase : ({ b with minePositions := ∅ } : Board).cell p.1 p.2 = b.cell p.1 p.2 := rfl
  constructor
  · unfold Board.place_mines_avoiding
    rw [foldl_placeOne_cell, hbase]
    constructor
    · intro h
      split_ifs at h with hcond
      · exact Or.inl hcond.1
      · exact Or.inr h
    · intro h
      rcases h with htaken | hmine
      · have hin : p ∈ Board.eligiblePositions b ar ac :=
          hperm.mem_iff.mp (List.mem_of_mem_take htaken)
        have hbound := mem_eligiblePositions.mp hin
        have hsome : (b.cell p.1 p.2).isSome :=
          WF_isSome_cell hWF hbound.1 hbound.2.1
        rw [if_pos ⟨htaken, hsome⟩]
      · split_ifs with hcond
        · rfl
        · exact hmine
  · unfold Board.place_mines_avoiding
    rw [foldl_placeOne_minePositions]
    show p ∈ (∅ : Finset (Nat × Nat)) ∪ _ ↔ _
    simp

end PlacementLemmas

/-- A freshly constructed board has no mine content anywhere. -/
theorem cell_new_ne_mine (W H M r c : Nat) :
    (Board.new W H M).cell r c ≠ some Cell.Mine := by
  by_cases hr : r < H
  · by_cases hc : c < W
    · rw [Board.cell_new W H M r c hr hc]
      intro h
      exact Cell.noConfusion (Option.some.inj h)
    · unfold Board.cell getMat? Board.new
      simp [List.getElem?_replicate, hr, hc]
  · unfold Board.cell getMat? Board.new
    simp [List.getElem?_replicate, hr]

/-- C1: for every fresh board, every avoid coordinate and every outcome of
the shuffle, `place_mines_avoiding` leaves every in-bounds cell within
Chebyshev distance 1 of the avoided coordinate mine-free. -/
theorem place_mines_exclusion (W H M ar ac r c : Nat)
    (shuffled : List (Nat × Nat))
    (hperm : shuffled.Perm (Board.eligiblePositions (Board.new W H M) ar ac))
    (hr : r < H) (hc : c < W)
    (hdr : ((r : Int) - (ar : Int)).natAbs ≤ 1)
    (hdc : ((c : Int) - (ac : Int)).natAbs ≤ 1) :
    ((Board.new W H M).place_mines_avoiding shuffled).cell r c ≠ some Cell.Mine := by
  intro hmine
  have h := (place_mines_spec (Board.new W H M) (Board.WF_new W H M) ar ac
      shuffled hperm (r, c)).1.mp hmine
  rcases h with htaken | hbase
  · have hel : (r, c) ∈ Board.eligiblePositions (Board.new W H M) ar ac :=
      hperm.mem_iff.mp (List.mem_of_mem_take htaken)
    rcases mem_eligiblePositions.mp hel with ⟨-, -, hno⟩
    exact hno ⟨hdr, hdc⟩
  · exact cell_new_ne_mine W H M r c hbase

/-- Witness for C1: on a fresh 4×4 board with 2 mines, avoiding (0,0) and
shuffling by the identity permutation, the neighbor (1,1) is not a mine. -/
theorem place_mines_exclusion_witness :
    ((Board.new 4 4 2).place_mines_avoiding
        (Board.eligiblePositions (Board.new 4 4 2) 0 0)).cell 1 1 ≠
      some Cell.Mine :=
  place_mines_exclusion 4 4 2 0 0 1 1
    (Board.eligiblePositions (Board.new 4 4 2) 0 0) (List.Perm.refl _)
    (by decide) (by decide) (by decide) (by decide)

/-- C2: for every fresh board, avoid coordinate and shuffle outcome, if at
least M coordinates are eligible then after `place_mines_avoiding` exactly
M cells have content `Mine` and the mine index is exactly the set of those
M coordinates. -/
theorem place_mines_count (W H M ar ac : Nat) (shuffled : List (Nat × Nat))
    (hperm : shuffled.Perm (Board.eligiblePositions (Board.new W H M) ar ac))
    (hM : M ≤ (Board.eligiblePositions (Board.new W H M) ar ac).length) :
    Board.mineCount ((Board.new W H M).place_mines_avoiding shuffled) = M ∧
    ((Board.new W H M).place_mines_avoiding shuffled).minePositions.card = M ∧
    (∀ p : Nat × Nat,
      p ∈ ((Board.new W H M).place_mines_avoiding shuffled).minePositions ↔
        ((Board.new W H M).place_mines_avoiding shuffled).cell p.1 p.2 =
          some Cell.Mine) := by
  have hWF := Board.WF_new W H M
  have hplaced := place_mines_spec (Board.new W H M) hWF ar ac shuffled hperm
  have htlen : (shuffled.take M).length = M := by
    rw [List.length_take, hperm.length_eq]
    exact min_eq_left hM
  have htnodup : (shuffled.take M).Nodup :=
    (List.take_sublist M shuffled).nodup
      (hperm.nodup_iff.mpr (eligiblePositions_nodup _ ar ac))
  have hmp : ((Board.new W H M).place_mines_avoiding shuffled).minePositions =
      (shuffled.take M).toFinset := by
    unfold Board.place_mines_avoiding
    rw [foldl_placeOne_minePositions]
    show (∅ : Finset (Nat × Nat)) ∪ (List.take M shuffled).toFinset = _
    rw [Finset.empty_union]
  have hcard : ((Board.new W H M).place_mines_avoiding shuffled).minePositions.card
      = M := by
    rw [hmp, List.toFinset_card_of_nodup htnodup, htlen]
  have hHeight : ((Board.new W H M).place_mines_avoiding shuffled).height = H :=
    (foldl_placeOne_fields _ _).2.1
  have hWidth : ((Board.new W H M).place_mines_avoiding shuffled).width = W :=
    (foldl_placeOne_fields _ _).1
  refine ⟨?_, hcard, ?_⟩
  · unfold Board.mineCount
    have hset : ((Finset.range ((Board.new W H M).place_mines_avoiding shuffled).height
          ×ˢ Finset.range ((Board.new W H M).place_mines_avoiding shuffled).width).filter
            (fun p => ((Board.new W H M).place_mines_avoiding shuffled).cell p.1 p.2 =
              some Cell.Mine)) = (shuffled.take M).toFinset := by
      ext p
      simp only [Finset.mem_filter, Finset.mem_product, Finset.mem_range,
        List.mem_toFinset]
      constructor
      · rintro ⟨-, hm⟩
        rcases (hplaced p).1.mp hm with h | h
        · exact h
        · exact absurd h (cell_new_ne_mine W H M p.1 p.2)
      · intro h
        have hin : p ∈ Board.eligiblePositions (Board.new W H M) ar ac :=
          hperm.mem_iff.mp (List.mem_of_mem_take h)
        have hb := mem_eligiblePositions.mp hin
        refine ⟨⟨?_, ?_⟩, (hplaced p).1.mpr (Or.inl h)⟩
        · rw [hHeight]
          exact hb.1
        · rw [hWidth]
          exact hb.2.1
    rw [hset, List.toFinset_card_of_nodup htnodup, htlen]
  · intro p
    rw [(hplaced p).2, (hplaced p).1]
    constructor
    · exact Or.inl
    · intro h
      rcases h with h | h
      · exact h
      · exact absurd h (cell_new_ne_mine W H M p.1 p.2)

/-- Witness for C2: the identity shuffle on a fresh 4×4 board with 2 mines,
avoiding (0,0), places exactly 2 mines. -/
theorem place_mines_count_witness :
    Board.mineCount ((Board.new 4 4 2).place_mines_avoiding
      (Board.eligiblePositions (Board.new 4 4 2) 0 0)) = 2 :=
  (place_mines_count 4 4 2 0 0
    (Board.eligiblePositions (Board.new 4 4 2) 0 0)
    (List.Perm.refl _) (by decide)).1

section NeighborLemmas

theorem neighborsOf_eq (height width row col : Nat) :
    Board.neighborsOf height width row col =
      (([-1, 0, 1] : List Int).product ([-1, 0, 1] : List Int)).filterMap
        (nbStep height width row col) := by
  show _ = List.filterMap _ (([-1, 0, 1] : List Int).flatMap
    fun a => ([-1, 0, 1] : List Int).map (Prod.mk a))
  rw [List.filterMap_flatMap]
  simp only [List.filterMap_map]
  rfl

theorem nbStep_eq_some {height width row col : Nat} {q : Int × Int}
    {p : Nat × Nat} (h : nbStep height width row col q = some p) :
    ¬ (q.1 = 0 ∧ q.2 = 0) ∧
    0 ≤ (row : Int) + q.1 ∧ (row : Int) + q.1 < (height : Int) ∧
    0 ≤ (col : Int) + q.2 ∧ (col : Int) + q.2 < (width : Int) ∧
    (p.1 : Int) = (row : Int) + q.1 ∧ (p.2 : Int) = (col : Int) + q.2 := by
  unfold nbStep at h
  split_ifs at h with h1 h2
  have hp := Option.some.inj h
  subst hp
  exact ⟨h1, h2.1, h2.2.1, h2.2.2.1, h2.2.2.2,
    Int.toNat_of_nonneg h2.1, Int.toNat_of_nonneg h2.2.2.1⟩

theorem mem_neighborsOf_iff {height width row col : Nat} {p : Nat × Nat} :
    p ∈ Board.neighborsOf height width row col ↔
      ¬ (p.1 = row ∧ p.2 = col) ∧ p.1 < height ∧ p.2 < width ∧
      ((p.1 : Int) - (row : Int)).natAbs ≤ 1 ∧
      ((p.2 : Int) - (col : Int)).natAbs ≤ 1 := by
  rcases p with ⟨pr, pc⟩
  rw [neighborsOf_eq, List.mem_filterMap]
  constructor
  · rintro ⟨⟨d1, d2⟩, hq, hstep⟩
    rw [List.pair_mem_product] at hq
    simp only [List.mem_cons, List.not_mem_nil, or_false] at hq
    obtain ⟨h1, h2, h3, h4, h5, e1, e2⟩ := nbStep_eq_some hstep
    simp only at h1 e1 e2
    refine ⟨?_, ?_, ?_, ?_, ?_⟩ <;> omega
  · rintro ⟨hne, hh, hw, h4, h5⟩
    refine ⟨((pr : Int) - (row : Int), (pc : Int) - (col : Int)), ?_, ?_⟩
    · rw [List.pair_mem_product]
      simp only [List.mem_cons, List.not_mem_nil, or_false]
      omega
    · show nbStep height width row col _ = some (pr, pc)
      unfold nbStep
      dsimp only
      rw [if_neg (by omega), if_pos (by refine ⟨?_, ?_, ?_, ?_⟩ <;> omega)]
      simp only [Option.some.injEq, Prod.mk.injEq]
      omega

theorem neighborsOf_nodup (height width row col : Nat) :
    (Board.neighborsOf height width row col).Nodup := by
  rw [neighborsOf_eq]
  apply List.Nodup.filterMap
  · intro q q' p hp hp'
    obtain ⟨-, n1, -, n2, -, e1, e2⟩ := nbStep_eq_some (Option.mem_def.mp hp)
    obtain ⟨-, m1, -, m2, -, f1, f2⟩ := nbStep_eq_some (Option.mem_def.mp hp')
    rcases q with ⟨a1, a2⟩
    rcases q' with ⟨b1, b2⟩
    simp only at e1 e2 f1 f2
    rw [Prod.mk.injEq]
    constructor <;> omega
  · exact (by decide : ([-1, 0, 1] : List Int).Nodup).product (by decide)

theorem neighborsOf_length_le (height width row col : Nat) :
    (Board.neighborsOf height width row col).length ≤ 8 := by
  rw [neighborsOf_eq]
  have hmem : ((0 : Int), (0 : Int)) ∈
      ([-1, 0, 1] : List Int).product ([-1, 0, 1] : List Int) := by decide
  have hlen := (List.Perm.filterMap (nbStep height width row col)
    (List.perm_cons_erase hmem)).length_eq
  rw [hlen, List.filterMap_cons_none]
  · calc (List.filterMap (nbStep height width row col)
          ((([-1, 0, 1] : List Int).product ([-1, 0, 1] : List Int)).erase
            ((0 : Int), (0 : Int)))).length
        ≤ ((([-1, 0, 1] : List Int).product ([-1, 0, 1] : List Int)).erase
            ((0 : Int), (0 : Int))).length := List.length_filterMap_le _ _
      _ ≤ 8 := by decide
  · unfold nbStep
    simp

end NeighborLemmas

section CalcLemmas

theorem calcCell_fields (b : Board) (row col : Nat) :
    (Board.calcCell b row col).width = b.width ∧
    (Board.calcCell b row col).height = b.height ∧
    (Board.calcCell b row col).mines = b.mines ∧
    (Board.calcCell b row col).states = b.states ∧
    (Board.calcCell b row col).minePositions = b.minePositions := by
  unfold Board.calcCell
  split_ifs <;> exact ⟨rfl, rfl, rfl, rfl, rfl⟩

theorem calcCell_cell (b : Board) (row col r c : Nat) :
    (Board.calcCell b row col).cell r c =
      if b.cell row col ≠ some Cell.Mine ∧ row = r ∧ col = c ∧ (b.cell r c).isSome
      then some (Board.numberize (Board.adjMines b row col))
      else b.cell r c := by
  unfold Board.calcCell
  split_ifs with h1 h2 h3
  · exact absurd h1 h2.1
  · rfl
  · show getMat? (setMat b.cells row col _) r c = _
    rw [getMat?_setMat]
    rcases h3 with ⟨-, e1, e2, hs⟩
    subst e1
    subst e2
    rw [if_pos ⟨rfl, rfl, hs⟩]
  · show getMat? (setMat b.cells row col _) r c = b.cell r c
    rw [getMat?_setMat, if_neg]
    · rfl
    · rintro ⟨e1, e2, hs⟩
      subst e1
      subst e2
      exact h3 ⟨h1, rfl, rfl, hs⟩

theorem calcCell_cell_mine_iff (b : Board) (row col r c : Nat) :
    ((Board.calcCell b row col).cell r c = some Cell.Mine) ↔
      (b.cell r c = some Cell.Mine) := by
  rw [calcCell_cell]
  split_ifs with h
  · constructor
    · intro hsome
      exfalso
      have heq := Option.some.inj hsome
      unfold Board.numberize at heq
      split_ifs at heq <;> exact Cell.noConfusion heq
    · intro hmine
      rcases h with ⟨hne, rfl, rfl, -⟩
      exact absurd hmine hne
  · exact Iff.rfl

theorem calcCell_cell_isSome (b : Board) (row col r c : Nat) :
    ((Board.calcCell b row col).cell r c).isSome = (b.cell r c).isSome := by
  rw [calcCell_cell]
  split_ifs with h
  · rw [h.2.2.2]
    rfl
  · rfl

theorem adjMines_congr {b1 b2 : Board} (hh : b1.height = b2.height)
    (hw : b1.width = b2.width)
    (hm : ∀ r c, b1.cell r c = some Cell.Mine ↔ b2.cell r c = some Cell.Mine)
    (row col : Nat) : Board.adjMines b1 row col = Board.adjMines b2 row col := by
  unfold Board.adjMines Board.neighbors
  rw [hh, hw]
  congr 1
  apply List.filter_congr
  intro p hp
  exact decide_eq_decide.mpr (hm p.1 p.2)

theorem foldl_calcCell_fields : ∀ (ps : List (Nat × Nat)) (b : Board),
    ((ps.foldl (fun bb q => Board.calcCell bb q.1 q.2) b).width = b.width ∧
     (ps.foldl (fun bb q => Board.calcCell bb q.1 q.2) b).height = b.height ∧
     (ps.foldl (fun bb q => Board.calcCell bb q.1 q.2) b).mines = b.mines ∧
     (ps.foldl (fun bb q => Board.calcCell bb q.1 q.2) b).states = b.states ∧
     (ps.foldl (fun bb q => Board.calcCell bb q.1 q.2) b).minePositions =
       b.minePositions)
  | [], _ => ⟨rfl, rfl, rfl, rfl, rfl⟩
  | q :: ps, b => by
      have h1 := calcCell_fields b q.1 q.2
      have h2 := foldl_calcCell_fields ps (Board.calcCell b q.1 q.2)
      rw [List.foldl_cons]
      exact ⟨h2.1.trans h1.1, h2.2.1.trans h1.2.1, h2.2.2.1.trans h1.2.2.1,
        h2.2.2.2.1.trans h1.2.2.2.1, h2.2.2.2.2.trans h1.2.2.2.2⟩

theorem foldl_calcCell_cell (ps : List (Nat × Nat)) (b : Board) (r c : Nat) :
    (ps.foldl (fun bb q => Board.calcCell bb q.1 q.2) b).cell r c =
      if (r, c) ∈ ps ∧ (b.cell r c).isSome ∧ b.cell r c ≠ some Cell.Mine
      then some (Board.numberize (Board.adjMines b r c))
      else b.cell r c := by
  induction ps generalizing b with
  | nil => simp
  | cons q ps ih =>
      rcases q with ⟨q1, q2⟩
      rw [List.foldl_cons, ih]
      have hfields := calcCell_fields b q1 q2
      have hmineiff := calcCell_cell_mine_iff b q1 q2 r c
      have hsome := calcCell_cell_isSome b q1 q2 r c
      have hadj : Board.adjMines (Board.calcCell b q1 q2) r c =
          Board.adjMines b r c :=
        adjMines_congr hfields.2.1 hfields.1
          (fun r' c' => calcCell_cell_mine_iff b q1 q2 r' c') r c
      by_cases hS : (b.cell r c).isSome
      · by_cases hNM : b.cell r c = some Cell.Mine
        · have hb1eq : (Board.calcCell b q1 q2).cell r c = b.cell r c := by
            rw [calcCell_cell, if_neg]
            rintro ⟨hne, e1, e2, -⟩
            apply hne
            rw [e1, e2]
            exact hNM
          have hn1 : ¬ ((r, c) ∈ ps ∧
              ((Board.calcCell b q1 q2).cell r c).isSome = true ∧
              (Board.calcCell b q1 q2).cell r c ≠ some Cell.Mine) := by
            rintro ⟨-, -, hcon⟩
            exact hcon (hb1eq.trans hNM)
          have hn2 : ¬ ((r, c) ∈ (q1, q2) :: ps ∧
              (b.cell r c).isSome = true ∧ b.cell r c ≠ some Cell.Mine) := by
            rintro ⟨-, -, hcon⟩
            exact hcon hNM
          rw [if_neg hn1, if_neg hn2, hb1eq]
        · by_cases hmem : (r, c) ∈ ps
          · have hp1 : (r, c) ∈ ps ∧
                ((Board.calcCell b q1 q2).cell r c).isSome = true ∧
                (Board.calcCell b q1 q2).cell r c ≠ some Cell.Mine :=
              ⟨hmem, by rw [hsome]; exact hS, fun hcon => hNM (hmineiff.mp hcon)⟩
            have hp2 : (r, c) ∈ (q1, q2) :: ps ∧
                (b.cell r c).isSome = true ∧ b.cell r c ≠ some Cell.Mine :=
              ⟨List.mem_cons_of_mem _ hmem, hS, hNM⟩
            rw [if_pos hp1, if_pos hp2, hadj]
          · by_cases hq : (r, c) = ((q1, q2) : Nat × Nat)
            · have e1 : q1 = r := (Prod.mk.injEq .. ▸ hq.symm).1
              have e2 : q2 = c := (Prod.mk.injEq .. ▸ hq.symm).2
              subst e1
              subst e2
              have hb1eq : (Board.calcCell b q1 q2).cell q1 q2 =
                  some (Board.numberize (Board.adjMines b q1 q2)) := by
                rw [calcCell_cell, if_pos ⟨hNM, rfl, rfl, hS⟩]
              have hn1 : ¬ ((q1, q2) ∈ ps ∧
                  ((Board.calcCell b q1 q2).cell q1 q2).isSome = true ∧
                  (Board.calcCell b q1 q2).cell q1 q2 ≠ some Cell.Mine) := by
                rintro ⟨hcon, -, -⟩
                exact hmem hcon
              have hp2 : (q1, q2) ∈ (q1, q2) :: ps ∧
                  (b.cell q1 q2).isSome = true ∧ b.cell q1 q2 ≠ some Cell.Mine :=
                ⟨List.mem_cons_self _ _, hS, hNM⟩
              rw [if_neg hn1, if_pos hp2, hb1eq]
            · have hb1eq : (Board.calcCell b q1 q2).cell r c = b.cell r c := by
                rw [calcCell_cell, if_neg]
                rintro ⟨-, e1, e2, -⟩
                apply hq
                rw [e1, e2]
              have hn1 : ¬ ((r, c) ∈ ps ∧
                  ((Board.calcCell b q1 q2).cell r c).isSome = true ∧
                  (Board.calcCell b q1 q2).cell r c ≠ some Cell.Mine) := by
                rintro ⟨hcon, -, -⟩
                exact hmem hcon
              have hn2 : ¬ ((r, c) ∈ (q1, q2) :: ps ∧
                  (b.cell r c).isSome = true ∧ b.cell r c ≠ some Cell.Mine) := by
                rintro ⟨hcon, -, -⟩
                rcases List.mem_cons.mp hcon with h | h
                · exact hq h
                · exact hmem h
              rw [if_neg hn1, if_neg hn2, hb1eq]
      · have hb1eq : (Board.calcCell b q1 q2).cell r c = b.cell r c := by
          rw [calcCell_cell, if_neg]
          rintro ⟨-, -, -, hcon⟩
          exact hS hcon
        have hn1 : ¬ ((r, c) ∈ ps ∧
            ((Board.calcCell b q1 q2).cell r c).isSome = true ∧
            (Board.calcCell b q1 q2).cell r c ≠ some Cell.Mine) := by
          rintro ⟨-, hcon, -⟩
          rw [hsome] at hcon
          exact hS hcon
        have hn2 : ¬ ((r, c) ∈ (q1, q2) :: ps ∧
            (b.cell r c).isSome = true ∧ b.cell r c ≠ some Cell.Mine) := by
          rintro ⟨-, hcon, -⟩
          exact hS hcon
        rw [if_neg hn1, if_neg hn2, hb1eq]

end CalcLemmas

section CalcNumbers

theorem adjMines_eq_mineNeighborCount (b : Board) (row col : Nat) :
    Board.adjMines b row col = mineNeighborCount b row col := by
  unfold Board.adjMines mineNeighborCount Board.neighbors
  rw [← List.toFinset_card_of_nodup ((neighborsOf_nodup b.height b.width row col).filter _)]
  congr 1
  ext p
  rw [List.mem_toFinset, List.mem_filter, mem_neighborsOf_iff, Finset.mem_filter,
    Finset.mem_product, Finset.mem_range, Finset.mem_range]
  constructor
  · rintro ⟨⟨hne, h1, h2, h3, h4⟩, hm⟩
    exact ⟨⟨h1, h2⟩, hne, h3, h4, of_decide_eq_true hm⟩
  · rintro ⟨⟨h1, h2⟩, hne, h3, h4, hm⟩
    exact ⟨⟨hne, h1, h2, h3, h4⟩, decide_eq_true hm⟩

theorem adjMines_le_eight (b : Board) (row col : Nat) :
    Board.adjMines b row col ≤ 8 :=
  le_trans (List.length_filter_le _ _) (neighborsOf_length_le b.height b.width row col)

theorem WF_cell_none {b : Board} (hWF : b.WF) {r c : Nat}
    (h : ¬ (r < b.height ∧ c < b.width)) : b.cell r c = none := by
  rcases hWF with ⟨hl, hw, -, -⟩
  unfold Board.cell getMat?
  by_cases hr : r < b.height
  · have hrl : r < b.cells.length := hl ▸ hr
    rw [List.getElem?_eq_getElem hrl]
    show (b.cells[r])[c]? = none
    apply List.getElem?_eq_none
    rw [hw _ (List.getElem_mem hrl)]
    omega
  · have hge : b.cells.length ≤ r := by
      rw [hl]
      omega
    rw [List.getElem?_eq_none hge]
    rfl

theorem calculate_numbers_cell (b : Board) (r c : Nat) :
    (Board.calculate_numbers b).cell r c =
      if (r < b.height ∧ c < b.width) ∧ (b.cell r c).isSome ∧
         b.cell r c ≠ some Cell.Mine
      then some (Board.numberize (Board.adjMines b r c))
      else b.cell r c := by
  unfold Board.calculate_numbers
  rw [foldl_calcCell_cell]
  simp only [mem_allCoords]

/-- C6: after `calculate_numbers`, every in-bounds non-mine cell reads
`Number(count)` for positive `count` and `Empty` for zero `count`, where
`count` is the number of `Mine` cells among its valid in-bounds
8-neighbors; mine cells are untouched; every resulting `Number(n)` has
`1 ≤ n ≤ 8`; and on a board without mines every in-bounds cell becomes
`Empty`. -/
theorem calculate_numbers_correct (b : Board) (hWF : b.WF) :
    (∀ row col, row < b.height → col < b.width →
      b.cell row col ≠ some Cell.Mine →
      (Board.calculate_numbers b).cell row col =
        some (if mineNeighborCount b row col = 0 then Cell.Empty
              else Cell.Number (mineNeighborCount b row col))) ∧
    (∀ row col, row < b.height → col < b.width →
      b.cell row col = some Cell.Mine →
      (Board.calculate_numbers b).cell row col = some Cell.Mine) ∧
    (∀ row col n,
      (Board.calculate_numbers b).cell row col = some (Cell.Number n) →
      1 ≤ n ∧ n ≤ 8) ∧
    ((∀ r c, b.cell r c ≠ some Cell.Mine) →
      ∀ row col, row < b.height → col < b.width →
        (Board.calculate_numbers b).cell row col = some Cell.Empty) := by
  have hkey : ∀ row col, row < b.height → col < b.width →
      b.cell row col ≠ some Cell.Mine →
      (Board.calculate_numbers b).cell row col =
        some (if mineNeighborCount b row col = 0 then Cell.Empty
              else Cell.Number (mineNeighborCount b row col)) := by
    intro row col h1 h2 hm
    have hle := adjMines_le_eight b row col
    have heq := adjMines_eq_mineNeighborCount b row col
    rw [heq] at hle
    rw [calculate_numbers_cell,
      if_pos ⟨⟨h1, h2⟩, WF_isSome_cell hWF h1 h2, hm⟩]
    unfold Board.numberize
    rw [heq]
    split_ifs with h0
    · rfl
    · rw [Nat.mod_eq_of_lt (by omega)]
  refine ⟨hkey, ?_, ?_, ?_⟩
  · intro row col h1 h2 hm
    rw [calculate_numbers_cell, if_neg]
    · exact hm
    · rintro ⟨-, -, hcon⟩
      exact hcon hm
  · intro row col n h
    rw [calculate_numbers_cell] at h
    split_ifs at h with hcond
    · have heq := adjMines_eq_mineNeighborCount b row col
      have hle := adjMines_le_eight b row col
      have hv := Option.some.inj h
      unfold Board.numberize at hv
      split_ifs at hv with h0
      have hn : Board.adjMines b row col % 256 = n := Cell.Number.inj hv
      rw [Nat.mod_eq_of_lt (by omega)] at hn
      omega
    · by_cases hb : row < b.height ∧ col < b.width
      · have hs := WF_isSome_cell hWF hb.1 hb.2
        have hnm : b.cell row col ≠ some Cell.Mine := by
          rw [h]
          intro hcon
          exact Cell.noConfusion (Option.some.inj hcon)
        exact absurd ⟨hb, hs, hnm⟩ hcond
      · rw [WF_cell_none hWF hb] at h
        exact Option.noConfusion h
  · intro hnone row col h1 h2
    rw [hkey row col h1 h2 (hnone row col)]
    have hzero : mineNeighborCount b row col = 0 := by
      unfold mineNeighborCount
      rw [Finset.filter_false_of_mem]
      · rfl
      · intro p hp
        rintro ⟨-, -, -, hcon⟩
        exact hnone p.1 p.2 hcon
    rw [hzero]
    rfl

/-- Witness for C6 on a concrete mine-free 2×2 board: the corner cell
computes to `Empty` (its neighbor-mine count is 0). -/
theorem calculate_numbers_correct_witness :
    (Board.calculate_numbers (Board.new 2 2 0)).cell 0 0 =
      some (if mineNeighborCount (Board.new 2 2 0) 0 0 = 0 then Cell.Empty
            else Cell.Number (mineNeighborCount (Board.new 2 2 0) 0 0)) :=
  (calculate_numbers_correct (Board.new 2 2 0) (by decide)).1 0 0
    (by decide) (by decide) (by decide)

end CalcNumbers

section FloodBasic

theorem WF_state_none {b : Board} (hWF : b.WF) {r c : Nat}
    (h : ¬ (r < b.height ∧ c < b.width)) : b.cell_state r c = none := by
  rcases hWF with ⟨-, -, hl, hw⟩
  unfold Board.cell_state getMat?
  by_cases hr : r < b.height
  · have hrl : r < b.states.length := hl ▸ hr
    rw [List.getElem?_eq_getElem hrl]
    show (b.states[r])[c]? = none
    apply List.getElem?_eq_none
    rw [hw _ (List.getElem_mem hrl)]
    omega
  · have hge : b.states.length ≤ r := by
      rw [hl]
      omega
    rw [List.getElem?_eq_none hge]
    rfl

theorem floodLoop_fields (fuel : Nat) :
    ∀ (b : Board) (vis : List (List Bool)) (queue revealed : List (Nat × Nat × Nat)),
      (Board.floodLoop fuel b vis queue revealed).1.width = b.width ∧
      (Board.floodLoop fuel b vis queue revealed).1.height = b.height ∧
      (Board.floodLoop fuel b vis queue revealed).1.mines = b.mines ∧
      (Board.floodLoop fuel b vis queue revealed).1.cells = b.cells ∧
      (Board.floodLoop fuel b vis queue revealed).1.minePositions = b.minePositions := by
  induction fuel with
  | zero =>
      intro b vis queue revealed
      exact ⟨rfl, rfl, rfl, rfl, rfl⟩
  | succ fuel ih =>
      intro b vis queue revealed
      cases queue with
      | nil => exact ⟨rfl, rfl, rfl, rfl, rfl⟩
      | cons head queue =>
          rcases head with ⟨r, c, dist⟩
          unfold Board.floodLoop
          dsimp only
          split_ifs with h1 h2
          · exact ih b vis queue revealed
          · exact ih _ _ _ _
          · exact ih _ _ _ _

theorem flood_fill_wave_fields {b b2 : Board} {row col : Nat}
    {l : List (Nat × Nat × Nat)}
    (h : b.flood_fill_wave row col = some (b2, l)) :
    b2.width = b.width ∧ b2.height = b.height ∧ b2.mines = b.mines ∧
    b2.cells = b.cells ∧ b2.minePositions = b.minePositions := by
  unfold Board.flood_fill_wave at h
  split_ifs at h with hb
  have hpair := Option.some.inj h
  rw [Prod.ext_iff] at hpair
  have h1 : _ = b2 := hpair.1
  rw [← h1]
  exact floodLoop_fields _ _ _ _ _

end FloodBasic

/-- C4 counterexample: `flood_fill_wave` on the out-of-bounds coordinate
(5,5) of a 2×2 board panics (the seed write `visited[row][col] = true`
indexes out of bounds), modelled as `none` — so the claim that every
mutation, flood fill included, is a silent no-op on out-of-bounds input is
false. -/
theorem flood_fill_oob_panics :
    (Board.new 2 2 0).flood_fill_wave 5 5 = none := by decide

/-- C4 (amended): on out-of-bounds coordinates `flag_cell`, `unflag_cell`
and `uncover_cell` leave the board completely unchanged (and cannot panic),
while `flood_fill_wave` panics (modelled as `none`) instead of returning
normally. -/
theorem oob_mutations (b : Board) (hWF : b.WF) (row col : Nat)
    (h : b.height ≤ row ∨ b.width ≤ col) :
    b.flag_cell row col = b ∧
    b.unflag_cell row col = b ∧
    b.uncover_cell row col = b ∧
    b.flood_fill_wave row col = none := by
  have hnb : ¬ (row < b.height ∧ col < b.width) := by omega
  have hnone : getMat? b.states row col = none := WF_state_none hWF hnb
  refine ⟨?_, ?_, ?_, ?_⟩
  · show { b with states := setMat b.states row col CellState.Flagged } = b
    rw [setMat_oob hnone]
  · rw [unflag_cell_eq, if_neg]
    rw [hnone]
    intro hcon
    exact Option.noConfusion hcon
  · show { b with states := setMat b.states row col CellState.Uncovered } = b
    rw [setMat_oob hnone]
  · unfold Board.flood_fill_wave
    rw [if_neg hnb]

/-- Witness for C4's amended theorem on a concrete 2×2 board and the
out-of-bounds coordinate (5,5). -/
theorem oob_mutations_witness :
    (Board.new 2 2 0).flag_cell 5 5 = Board.new 2 2 0 ∧
    (Board.new 2 2 0).unflag_cell 5 5 = Board.new 2 2 0 ∧
    (Board.new 2 2 0).uncover_cell 5 5 = Board.new 2 2 0 :=
  have h := oob_mutations (Board.new 2 2 0) (by decide) 5 5 (by decide)
  ⟨h.1, h.2.1, h.2.2.1⟩

theorem calculate_numbers_mine_iff (b : Board) (r c : Nat) :
    ((Board.calculate_numbers b).cell r c = some Cell.Mine) ↔
      (b.cell r c = some Cell.Mine) := by
  rw [calculate_numbers_cell]
  split_ifs with h
  · constructor
    · intro hcon
      exfalso
      have hv := Option.some.inj hcon
      unfold Board.numberize at hv
      split_ifs at hv <;> exact Cell.noConfusion hv
    · intro hcon
      exact absurd hcon h.2.2
  · exact Iff.rfl

/-- C7 counterexample: a second `place_mines_avoiding` clears the mine
index but not the previously mined cells, so on a 5-wide 1-high board with
one mine first placed at (0,2) (avoiding (0,0)) and then replaced at (0,0)
(avoiding (0,2)), the stale mine at (0,2) is in the grid but not in the
index — the invariant fails. -/
theorem mine_index_counterexample :
    ¬ Board.mineIndexInv
      (((Board.new 5 1 1).place_mines_avoiding
          (Board.eligiblePositions (Board.new 5 1 1) 0 0)).place_mines_avoiding
        (Board.eligiblePositions
          ((Board.new 5 1 1).place_mines_avoiding
            (Board.eligiblePositions (Board.new 5 1 1) 0 0)) 0 2)) := by
  intro hinv
  have h := (hinv (0, 2)).mpr (by decide)
  revert h
  decide

/-- C7 (amended): the mine-index invariant (coordinate in the index ⟺ cell
content is `Mine`) holds after construction, is preserved by `flag_cell`,
`unflag_cell`, `uncover_cell`, `calculate_numbers` and `flood_fill_wave`,
and is established by `place_mines_avoiding` provided no cell already
holds a mine (as on a fresh board); a repeated invocation can break it
because cells are not cleared (see the counterexample). -/
theorem mine_index_invariant_ops :
    (∀ W H M, Board.mineIndexInv (Board.new W H M)) ∧
    (∀ (b : Board) (r c : Nat),
      Board.mineIndexInv b → Board.mineIndexInv (b.flag_cell r c)) ∧
    (∀ (b : Board) (r c : Nat),
      Board.mineIndexInv b → Board.mineIndexInv (b.unflag_cell r c)) ∧
    (∀ (b : Board) (r c : Nat),
      Board.mineIndexInv b → Board.mineIndexInv (b.uncover_cell r c)) ∧
    (∀ b : Board,
      Board.mineIndexInv b → Board.mineIndexInv (Board.calculate_numbers b)) ∧
    (∀ (b : Board) (row col : Nat) (b2 : Board) (l : List (Nat × Nat × Nat)),
      Board.mineIndexInv b → b.flood_fill_wave row col = some (b2, l) →
      Board.mineIndexInv b2) ∧
    (∀ (b : Board) (ar ac : Nat) (shuffled : List (Nat × Nat)), b.WF →
      shuffled.Perm (b.eligiblePositions ar ac) →
      (∀ p : Nat × Nat, b.cell p.1 p.2 ≠ some Cell.Mine) →
      Board.mineIndexInv (b.place_mines_avoiding shuffled)) := by
  refine ⟨?_, ?_, ?_, ?_, ?_, ?_, ?_⟩
  · intro W H M p
    constructor
    · intro hcon
      exact absurd hcon (Finset.not_mem_empty p)
    · intro hcon
      exact absurd hcon (cell_new_ne_mine W H M p.1 p.2)
  · intro b r c hinv
    exact hinv
  · intro b r c hinv
    rw [unflag_cell_eq]
    split_ifs
    · exact hinv
    · exact hinv
  · intro b r c hinv
    exact hinv
  · intro b hinv p
    have hmp : (Board.calculate_numbers b).minePositions = b.minePositions :=
      (foldl_calcCell_fields (Board.allCoords b.height b.width) b).2.2.2.2
    show p ∈ (Board.calculate_numbers b).minePositions ↔ _
    rw [hmp, calculate_numbers_mine_iff]
    exact hinv p
  · intro b row col b2 l hinv hf p
    obtain ⟨-, -, -, hcells, hmp⟩ := flood_fill_wave_fields hf
    show p ∈ b2.minePositions ↔ b2.cell p.1 p.2 = some Cell.Mine
    unfold Board.cell
    rw [hmp, hcells]
    exact hinv p
  · intro b ar ac shuffled hWF hperm hnomine p
    have hspec := place_mines_spec b hWF ar ac shuffled hperm p
    show p ∈ (b.place_mines_avoiding shuffled).minePositions ↔ _
    rw [hspec.2, hspec.1]
    constructor
    · exact Or.inl
    · rintro (h | h)
      · exact h
      · exact absurd h (hnomine p)

/-- Witness for C7's amended theorem: the invariant instance at (0,2) holds
after a first placement on a fresh 5×1 board. -/
theorem mine_index_invariant_ops_witness :
    (0, 2) ∈ ((Board.new 5 1 1).place_mines_avoiding
        (Board.eligiblePositions (Board.new 5 1 1) 0 0)).minePositions ↔
      ((Board.new 5 1 1).place_mines_avoiding
        (Board.eligiblePositions (Board.new 5 1 1) 0 0)).cell 0 2 =
        some Cell.Mine :=
  mine_index_invariant_ops.2.2.2.2.2.2 (Board.new 5 1 1) 0 0
    (Board.eligiblePositions (Board.new 5 1 1) 0 0) (by decide)
    (List.Perm.refl _) (fun p => cell_new_ne_mine 5 1 1 p.1 p.2) (0, 2)

section FloodFold

theorem getD_true_eq_false {o : Option Bool} (h : o.getD true = false) :
    o = some false := by
  cases o with
  | none => simp at h
  | some b =>
      cases b with
      | false => rfl
      | true => simp at h

theorem getD_covered_uncovered {o : Option CellState}
    (h : o.getD CellState.Covered = CellState.Uncovered) :
    o = some CellState.Uncovered := by
  cases o with
  | none => exact absurd h (by simp)
  | some s => rw [Option.getD_some] at h; rw [h]

theorem getD_covered_covered {o : Option CellState} (hs : o.isSome)
    (h : o.getD CellState.Covered = CellState.Covered) :
    o = some CellState.Covered := by
  cases o with
  | none => simp at hs
  | some s => rw [Option.getD_some] at h; rw [h]

theorem setMat_true_mono {vis : List (List Bool)} {r c r' c' : Nat}
    (h : getMat? vis r' c' = some true) :
    getMat? (setMat vis r c true) r' c' = some true := by
  rw [getMat?_setMat]
  split_ifs with hcond
  · rfl
  · exact h

theorem setMat_true_false {vis : List (List Bool)} {r c r' c' : Nat}
    (h : getMat? (setMat vis r c true) r' c' = some false) :
    getMat? vis r' c' = some false := by
  rw [getMat?_setMat] at h
  split_ifs at h with hcond
  · exact absurd h (by simp)
  · exact h

theorem falseCount_le (height width : Nat) (vis : List (List Bool)) :
    falseCount height width vis ≤ height * width := by
  unfold falseCount
  calc ((Finset.range height ×ˢ Finset.range width).filter _).card
      ≤ (Finset.range height ×ˢ Finset.range width).card :=
        Finset.card_filter_le _ _
    _ = height * width := by rw [Finset.card_product, Finset.card_range,
        Finset.card_range]

theorem falseCount_flip {height width : Nat} {vis : List (List Bool)}
    {r c : Nat} (hr : r < height) (hc : c < width)
    (hf : getMat? vis r c = some false) :
    falseCount height width (setMat vis r c true) + 1 =
      falseCount height width vis := by
  unfold falseCount
  have hset : ((Finset.range height ×ˢ Finset.range width).filter
        (fun p => getMat? (setMat vis r c true) p.1 p.2 = some false)) =
      ((Finset.range height ×ˢ Finset.range width).filter
        (fun p => getMat? vis p.1 p.2 = some false)).erase (r, c) := by
    ext q
    rcases q with ⟨p1, p2⟩
    rw [Finset.mem_erase, Finset.mem_filter, Finset.mem_filter]
    constructor
    · rintro ⟨hmem, hp⟩
      rw [getMat?_setMat] at hp
      split_ifs at hp with hcond
      · exact absurd hp (by simp)
      · refine ⟨?_, hmem, hp⟩
        intro hq
        rw [Prod.mk.injEq] at hq
        exact hcond ⟨hq.1.symm, hq.2.symm, by rw [hf]; rfl⟩
    · rintro ⟨hne, hmem, hp⟩
      refine ⟨hmem, ?_⟩
      rw [getMat?_setMat, if_neg]
      · exact hp
      · rintro ⟨e1, e2, -⟩
        exact hne (by rw [e1, e2])
  rw [hset, Finset.card_erase_of_mem]
  · have hpos : 0 < ((Finset.range height ×ˢ Finset.range width).filter
        (fun p => getMat? vis p.1 p.2 = some false)).card := by
      apply Finset.card_pos.mpr
      exact ⟨(r, c), by
        rw [Finset.mem_filter, Finset.mem_product, Finset.mem_range,
          Finset.mem_range]
        exact ⟨⟨hr, hc⟩, hf⟩⟩
    omega
  · rw [Finset.mem_filter, Finset.mem_product, Finset.mem_range,
      Finset.mem_range]
    exact ⟨⟨hr, hc⟩, hf⟩

theorem enqueue_fold_spec (b2 : Board) (dist : Nat) :
    ∀ (nbrs : List (Nat × Nat)) (vis : List (List Bool))
      (queue : List (Nat × Nat × Nat)),
    (∀ p ∈ nbrs, p.1 < b2.height ∧ p.2 < b2.width) →
    ∃ news,
      (nbrs.foldl (Board.enqStep b2 dist) (vis, queue)).2 = queue ++ news ∧
      (∀ r c, getMat? vis r c = some true →
        getMat? (nbrs.foldl (Board.enqStep b2 dist) (vis, queue)).1 r c =
          some true) ∧
      (∀ r c,
        getMat? (nbrs.foldl (Board.enqStep b2 dist) (vis, queue)).1 r c =
          some false → getMat? vis r c = some false) ∧
      ((nbrs.foldl (Board.enqStep b2 dist) (vis, queue)).1.length =
        vis.length) ∧
      (∀ k : Nat, (∀ rowL ∈ vis, rowL.length = k) →
        ∀ rowL ∈ (nbrs.foldl (Board.enqStep b2 dist) (vis, queue)).1,
          rowL.length = k) ∧
      (∀ t ∈ news, ∃ p, p ∈ nbrs ∧ t = (p.1, p.2, dist + 1) ∧
        Board.getSD b2 p.1 p.2 = CellState.Covered ∧
        getMat? vis p.1 p.2 = some false ∧
        getMat? (nbrs.foldl (Board.enqStep b2 dist) (vis, queue)).1 p.1 p.2 =
          some true) ∧
      ((news.map (fun t => (t.1, t.2.1))).Nodup) ∧
      (falseCount b2.height b2.width
          (nbrs.foldl (Board.enqStep b2 dist) (vis, queue)).1 + news.length ≤
        falseCount b2.height b2.width vis) := by
  intro nbrs
  induction nbrs with
  | nil =>
      intro vis queue hb
      exact ⟨[], by simp, fun r c h => h, fun r c h => h, rfl,
        fun k hk => hk, by simp, by simp, by simp⟩
  | cons p nbrs ih =>
      intro vis queue hb
      rw [List.foldl_cons]
      by_cases hcond : (getMat? vis p.1 p.2).getD true = false ∧
          Board.getSD b2 p.1 p.2 = CellState.Covered
      · have hstep : Board.enqStep b2 dist (vis, queue) p =
            (setMat vis p.1 p.2 true, queue ++ [(p.1, p.2, dist + 1)]) := by
          unfold Board.enqStep
          rw [if_pos hcond]
        rw [hstep]
        have hvisf : getMat? vis p.1 p.2 = some false :=
          getD_true_eq_false hcond.1
        obtain ⟨news1, hq, hmono, hback, hlen, hwid, hnews, hnodup, hcount⟩ :=
          ih (setMat vis p.1 p.2 true) (queue ++ [(p.1, p.2, dist + 1)])
            (fun p' hp' => hb p' (List.mem_cons_of_mem p hp'))
        refine ⟨(p.1, p.2, dist + 1) :: news1, ?_, ?_, ?_, ?_, ?_, ?_, ?_, ?_⟩
        · rw [hq, List.append_assoc]
          rfl
        · intro r c h
          exact hmono r c (setMat_true_mono h)
        · intro r c h
          exact setMat_true_false (hback r c h)
        · rw [hlen, length_setMat]
        · intro k hk
          apply hwid
          exact mem_setMat_length hk
        · intro t ht
          rcases List.mem_cons.mp ht with rfl | ht
          · refine ⟨p, List.mem_cons_self p nbrs, rfl, hcond.2, hvisf, ?_⟩
            apply hmono
            rw [getMat?_setMat, if_pos]
            exact ⟨rfl, rfl, by rw [hvisf]; rfl⟩
          · obtain ⟨p', hp', he, hcov, hf, htrue⟩ := hnews t ht
            exact ⟨p', List.mem_cons_of_mem p hp', he, hcov,
              setMat_true_false hf, htrue⟩
        · rw [List.map_cons, List.nodup_cons]
          refine ⟨?_, hnodup⟩
          intro hcon
          rcases List.mem_map.mp hcon with ⟨t, ht, hco⟩
          obtain ⟨p', hp', he, -, hf, -⟩ := hnews t ht
          rw [he] at hco
          rw [Prod.mk.injEq] at hco
          have hsf : getMat? (setMat vis p.1 p.2 true) p'.1 p'.2 = some false := hf
          rw [getMat?_setMat] at hsf
          split_ifs at hsf with hc2
          · exact absurd hsf (by simp)
          · exact hc2 ⟨hco.1.symm, hco.2.symm, by rw [hvisf]; rfl⟩
        · have hflip := falseCount_flip (hb p (List.mem_cons_self p nbrs)).1
            (hb p (List.mem_cons_self p nbrs)).2 hvisf
          simp only [List.length_cons]
          omega
      · have hstep : Board.enqStep b2 dist (vis, queue) p = (vis, queue) := by
          unfold Board.enqStep
          rw [if_neg hcond]
        rw [hstep]
        obtain ⟨news1, hq, hmono, hback, hlen, hwid, hnews, hnodup, hcount⟩ :=
          ih vis queue (fun p' hp' => hb p' (List.mem_cons_of_mem p hp'))
        exact ⟨news1, hq, hmono, hback, hlen, hwid,
          fun t ht =>
            (hnews t ht).imp fun p' h =>
              ⟨List.mem_cons_of_mem p h.1, h.2⟩,
          hnodup, hcount⟩

end FloodFold

section FloodSpecHelpers

theorem getMat?_replicateGrid {α : Type} (h w r c : Nat) (a : α) :
    getMat? (List.replicate h (List.replicate w a)) r c =
      if r < h ∧ c < w then some a else none := by
  unfold getMat?
  rw [List.getElem?_replicate]
  by_cases hr : r < h
  · rw [if_pos hr]
    show (List.replicate w a)[c]? = _
    rw [List.getElem?_replicate]
    by_cases hc : c < w
    · rw [if_pos hc, if_pos ⟨hr, hc⟩]
    · rw [if_neg hc, if_neg (fun hcon => hc hcon.2)]
  · rw [if_neg hr]
    show none = _
    rw [if_neg (fun hcon => hr hcon.1)]

theorem nodup_concat_of {α : Type} [DecidableEq α] {l : List α} {a : α}
    (h : l.Nodup) (h2 : a ∉ l) : (l ++ [a]).Nodup := by
  rw [List.nodup_append]
  refine ⟨h, List.nodup_singleton a, ?_⟩
  intro x hx hxa
  rw [List.mem_singleton] at hxa
  subst hxa
  exact h2 hx

theorem coordOf_mk (r c d : Nat) : coordOf (r, c, d) = (r, c) := rfl

theorem mem_map_coordOf {l : List (Nat × Nat × Nat)} {r c : Nat} :
    (r, c) ∈ l.map coordOf ↔ ∃ d, (r, c, d) ∈ l := by
  rw [List.mem_map]
  constructor
  · rintro ⟨⟨r', c', d⟩, ht, he⟩
    rw [coordOf_mk, Prod.mk.injEq] at he
    rcases he with ⟨rfl, rfl⟩
    exact ⟨d, ht⟩
  · rintro ⟨d, hd⟩
    exact ⟨(r, c, d), hd, rfl⟩

end FloodSpecHelpers
theorem floodLoop_spec (b0 : Board) (row0 col0 : Nat) :
    ∀ (fuel : Nat) (b : Board) (vis : List (List Bool))
      (queue revealed : List (Nat × Nat × Nat)),
    b.WF →
    b.height = b0.height → b.width = b0.width →
    (∀ r c, b.cell_state r c =
      if (r, c) ∈ revealed.map coordOf then some CellState.Uncovered
      else b0.cell_state r c) →
    vis.length = b.height →
    (∀ rowL ∈ vis, rowL.length = b.width) →
    (∀ t ∈ queue, t.1 < b.height ∧ t.2.1 < b.width) →
    (queue.map coordOf).Nodup →
    (∀ t ∈ queue, getMat? vis t.1 t.2.1 = some true) →
    (∀ t ∈ queue, coordOf t ∉ revealed.map coordOf) →
    (∀ t ∈ queue, coordOf t ≠ (row0, col0) →
      b0.cell_state t.1 t.2.1 = some CellState.Covered) →
    (∀ t ∈ queue, coordOf t = (row0, col0) → t.2.2 = 0) →
    getMat? vis row0 col0 = some true →
    (revealed.map coordOf).Nodup →
    (∀ t ∈ revealed,
      b0.cell_state t.1 t.2.1 ≠ some CellState.Uncovered ∧
      (coordOf t ≠ (row0, col0) →
        b0.cell_state t.1 t.2.1 = some CellState.Covered) ∧
      (coordOf t = (row0, col0) → t.2.2 = 0)) →
    (((row0, col0) ∈ queue.map coordOf ∧
        (row0, col0) ∉ revealed.map coordOf) ∨
      (row0, col0, 0) ∈ revealed ∨
      (b0.cell_state row0 col0 = some CellState.Uncovered ∧
        (row0, col0) ∉ revealed.map coordOf ∧
        (row0, col0) ∉ queue.map coordOf)) →
    queue.length + falseCount b.height b.width vis ≤ fuel →
    (∀ t ∈ (Board.floodLoop fuel b vis queue revealed).2,
      b0.cell_state t.1 t.2.1 ≠ some CellState.Uncovered ∧
      (coordOf t ≠ (row0, col0) →
        b0.cell_state t.1 t.2.1 = some CellState.Covered) ∧
      (coordOf t = (row0, col0) → t.2.2 = 0)) ∧
    ((Board.floodLoop fuel b vis queue revealed).2.map coordOf).Nodup ∧
    (b0.cell_state row0 col0 ≠ some CellState.Uncovered →
      (row0, col0, 0) ∈ (Board.floodLoop fuel b vis queue revealed).2) := by
  intro fuel
  induction fuel with
  | zero =>
      intro b vis queue revealed hWF hh hw h10 hv1 hv2 h3 h4 h5 h6 h11 h12
        h15 h8 h13 horig hfuel
      have hq : queue = [] := List.length_eq_zero.mp (by omega)
      subst hq
      refine ⟨h13, h8, ?_⟩
      intro hne
      rcases horig with ⟨hin, -⟩ | hin | ⟨hun, -, -⟩
      · simp at hin
      · exact hin
      · exact absurd hun hne
  | succ fuel ih =>
      intro b vis queue revealed hWF hh hw h10 hv1 hv2 h3 h4 h5 h6 h11 h12
        h15 h8 h13 horig hfuel
      cases queue with
      | nil =>
          refine ⟨h13, h8, ?_⟩
          intro hne
          rcases horig with ⟨hin, -⟩ | hin | ⟨hun, -, -⟩
          · simp at hin
          · exact hin
          · exact absurd hun hne
      | cons head rest =>
          rcases head with ⟨r, c, dist⟩
          unfold Board.floodLoop
          dsimp only
          split_ifs with hskip hempty
          · have hmemh : (r, c, dist) ∈ (r, c, dist) :: rest := List.mem_cons_self _ _
            have hnotrev : (r, c) ∉ revealed.map coordOf := h6 _ hmemh
            rw [List.map_cons, coordOf_mk, List.nodup_cons] at h4
            have hb0un : b0.cell_state r c = some CellState.Uncovered := by
              have hstate : b.cell_state r c = b0.cell_state r c := by
                rw [h10 r c, if_neg hnotrev]
              rw [← hstate]
              exact getD_covered_uncovered hskip
            apply ih b vis rest revealed hWF hh hw h10 hv1 hv2
              (fun t ht => h3 t (List.mem_cons_of_mem _ ht)) h4.2
              (fun t ht => h5 t (List.mem_cons_of_mem _ ht))
              (fun t ht => h6 t (List.mem_cons_of_mem _ ht))
              (fun t ht => h11 t (List.mem_cons_of_mem _ ht))
              (fun t ht => h12 t (List.mem_cons_of_mem _ ht))
              h15 h8 h13 ?_ ?_
            · rcases horig with ⟨hinq, hnr⟩ | hin | ⟨hun, hnr, hnq⟩
              · rw [List.map_cons, coordOf_mk, List.mem_cons] at hinq
                rcases hinq with heq | hinq
                · have e1 : row0 = r := congrArg Prod.fst heq
                  have e2 : col0 = c := congrArg Prod.snd heq
                  subst e1
                  subst e2
                  exact Or.inr (Or.inr ⟨hb0un, hnr, h4.1⟩)
                · exact Or.inl ⟨hinq, hnr⟩
              · exact Or.inr (Or.inl hin)
              · refine Or.inr (Or.inr ⟨hun, hnr, ?_⟩)
                rw [List.map_cons, coordOf_mk, List.mem_cons] at hnq
                exact fun hcon => hnq (Or.inr hcon)
            · rw [List.length_cons] at hfuel
              omega
          · have hmemh : (r, c, dist) ∈ (r, c, dist) :: rest := List.mem_cons_self _ _
            have hbnd : r < b.height ∧ c < b.width := h3 _ hmemh
            have hnotrev : (r, c) ∉ revealed.map coordOf := h6 _ hmemh
            rw [List.map_cons, coordOf_mk, List.nodup_cons] at h4
            have hstate : b.cell_state r c = b0.cell_state r c := by
              rw [h10 r c, if_neg hnotrev]
            have hb0ne : b0.cell_state r c ≠ some CellState.Uncovered := by
              rw [← hstate]
              intro hcon
              apply hskip
              show (getMat? b.states r c).getD CellState.Covered = CellState.Uncovered
              rw [show getMat? b.states r c = some CellState.Uncovered from hcon]
              rfl
            have hSome : (b.cell_state r c).isSome := WF_isSome_state hWF hbnd.1 hbnd.2
            set B2 : Board := Board.mk b.width b.height b.mines b.cells
              (setMat b.states r c CellState.Uncovered) b.minePositions with hB2
            have hWF2 : B2.WF := by
              rcases hWF with ⟨hc1, hc2, hs1, hs2⟩
              exact ⟨hc1, hc2, (length_setMat _ _ _ _).trans hs1, mem_setMat_length hs2⟩
            have hmap : (revealed ++ [(r, c, dist)]).map coordOf =
                revealed.map coordOf ++ [(r, c)] := by
              rw [List.map_append]
              rfl
            have h10' : ∀ r' c', B2.cell_state r' c' =
                if (r', c') ∈ (revealed ++ [(r, c, dist)]).map coordOf
                then some CellState.Uncovered else b0.cell_state r' c' := by
              intro r' c'
              show getMat? (setMat b.states r c CellState.Uncovered) r' c' = _
              rw [getMat?_setMat, hmap]
              by_cases hrc : r = r' ∧ c = c'
              · rcases hrc with ⟨rfl, rfl⟩
                rw [if_pos ⟨rfl, rfl, hSome⟩, if_pos]
                exact List.mem_append.mpr (Or.inr (List.mem_singleton.mpr rfl))
              · rw [if_neg (fun hcon => hrc ⟨hcon.1, hcon.2.1⟩)]
                show b.cell_state r' c' = _
                rw [h10 r' c']
                by_cases hmem2 : (r', c') ∈ revealed.map coordOf
                · rw [if_pos hmem2, if_pos (List.mem_append.mpr (Or.inl hmem2))]
                · rw [if_neg hmem2, if_neg]
                  intro hcon
                  rcases List.mem_append.mp hcon with hcon | hcon
                  · exact hmem2 hcon
                  · rw [List.mem_singleton, Prod.mk.injEq] at hcon
                    exact hrc ⟨hcon.1.symm, hcon.2.symm⟩
            have h8' : ((revealed ++ [(r, c, dist)]).map coordOf).Nodup := by
              rw [hmap]
              exact nodup_concat_of h8 hnotrev
            have h13' : ∀ t ∈ revealed ++ [(r, c, dist)],
                b0.cell_state t.1 t.2.1 ≠ some CellState.Uncovered ∧
                (coordOf t ≠ (row0, col0) →
                  b0.cell_state t.1 t.2.1 = some CellState.Covered) ∧
                (coordOf t = (row0, col0) → t.2.2 = 0) := by
              intro t ht
              rcases List.mem_append.mp ht with ht | ht
              · exact h13 t ht
              · rw [List.mem_singleton] at ht
                subst ht
                exact ⟨hb0ne, h11 _ hmemh, h12 _ hmemh⟩
            have hnbrs : ∀ p ∈ Board.neighborsOf b.height b.width r c,
                p.1 < B2.height ∧ p.2 < B2.width := by
              intro p hp
              have hmm := mem_neighborsOf_iff.mp hp
              exact ⟨hmm.2.1, hmm.2.2.1⟩
            obtain ⟨news, hq, hmono, hback, hlen, hwid, hnews, hnodupnews, hcount⟩ :=
              enqueue_fold_spec B2 dist (Board.neighborsOf b.height b.width r c)
                vis rest hnbrs
            have hnewsP : ∀ t ∈ news,
                coordOf t ∉ (revealed ++ [(r, c, dist)]).map coordOf ∧
                b0.cell_state t.1 t.2.1 = some CellState.Covered ∧
                coordOf t ≠ (row0, col0) := by
              intro t ht
              obtain ⟨p, hp, he, hcov, hf, -⟩ := hnews t ht
              subst he
              have hpb := hnbrs p hp
              have hnrev : (p.1, p.2) ∉ (revealed ++ [(r, c, dist)]).map coordOf := by
                intro hcon
                have hb2u : B2.cell_state p.1 p.2 = some CellState.Uncovered := by
                  rw [h10' p.1 p.2, if_pos hcon]
                have hgu : Board.getSD B2 p.1 p.2 = CellState.Uncovered := by
                  show (getMat? B2.states p.1 p.2).getD CellState.Covered = _
                  rw [show getMat? B2.states p.1 p.2 = some CellState.Uncovered from hb2u]
                  rfl
                rw [hcov] at hgu
                exact CellState.noConfusion hgu
              have hb2c : B2.cell_state p.1 p.2 = some CellState.Covered :=
                getD_covered_covered (WF_isSome_state hWF2 hpb.1 hpb.2) hcov
              have hb0c : b0.cell_state p.1 p.2 = some CellState.Covered := by
                rw [h10' p.1 p.2, if_neg hnrev] at hb2c
                exact hb2c
              refine ⟨hnrev, hb0c, ?_⟩
              intro hcon
              rw [coordOf_mk, Prod.mk.injEq] at hcon
              rw [hcon.1, hcon.2] at hf
              rw [h15] at hf
              exact Bool.noConfusion (Option.some.inj hf)
            rw [hq]
            apply ih B2 _ (rest ++ news) (revealed ++ [(r, c, dist)]) hWF2 hh hw
              h10' (hlen.trans hv1) (hwid b.width hv2) ?_ ?_ ?_ ?_ ?_ ?_
              (hmono _ _ h15) h8' h13' ?_ ?_
            · intro t ht
              rcases List.mem_append.mp ht with ht | ht
              · exact h3 t (List.mem_cons_of_mem _ ht)
              · obtain ⟨p, hp, he, -, -, -⟩ := hnews t ht
                subst he
                exact hnbrs p hp
            · rw [List.map_append, List.nodup_append]
              refine ⟨h4.2, hnodupnews, ?_⟩
              intro x hx hxn
              rcases List.mem_map.mp hx with ⟨t, ht, rfl⟩
              rcases List.mem_map.mp hxn with ⟨t2, ht2, he2⟩
              obtain ⟨p, hp, hpe, -, hf, -⟩ := hnews t2 ht2
              subst hpe
              rw [coordOf_mk] at he2
              have htrue := h5 t (List.mem_cons_of_mem _ ht)
              have he3 : coordOf t = (p.1, p.2) := he2.symm
              have e1 : t.1 = p.1 := congrArg Prod.fst he3
              have e2 : t.2.1 = p.2 := congrArg Prod.snd he3
              rw [e1, e2] at htrue
              rw [htrue] at hf
              exact Bool.noConfusion (Option.some.inj hf)
            · intro t ht
              rcases List.mem_append.mp ht with ht | ht
              · exact hmono _ _ (h5 t (List.mem_cons_of_mem _ ht))
              · obtain ⟨p, hp, he, -, -, htrue⟩ := hnews t ht
                subst he
                exact htrue
            · intro t ht hcon
              rcases List.mem_append.mp ht with ht | ht
              · rw [hmap] at hcon
                rcases List.mem_append.mp hcon with hcon | hcon
                · exact h6 t (List.mem_cons_of_mem _ ht) hcon
                · rw [List.mem_singleton] at hcon
                  apply h4.1
                  rw [← hcon]
                  exact List.mem_map.mpr ⟨t, ht, rfl⟩
              · exact (hnewsP t ht).1 hcon
            · intro t ht hne
              rcases List.mem_append.mp ht with ht | ht
              · exact h11 t (List.mem_cons_of_mem _ ht) hne
              · exact (hnewsP t ht).2.1
            · intro t ht he2
              rcases List.mem_append.mp ht with ht | ht
              · exact h12 t (List.mem_cons_of_mem _ ht) he2
              · exact absurd he2 (hnewsP t ht).2.2
            · by_cases horc : (row0, col0) = (r, c)
              · have e1 : row0 = r := congrArg Prod.fst horc
                have e2 : col0 = c := congrArg Prod.snd horc
                subst e1
                subst e2
                have hd0 : dist = 0 := h12 _ hmemh rfl
                subst hd0
                exact Or.inr (Or.inl
                  (List.mem_append.mpr (Or.inr (List.mem_singleton.mpr rfl))))
              · rcases horig with ⟨hinq, hnr⟩ | hin | ⟨hun, hnr, hnq⟩
                · rw [List.map_cons, coordOf_mk, List.mem_cons] at hinq
                  rcases hinq with heq | hinq
                  · exact absurd heq horc
                  · refine Or.inl ⟨?_, ?_⟩
                    · rw [List.map_append]
                      exact List.mem_append.mpr (Or.inl hinq)
                    · rw [hmap]
                      intro hcon
                      rcases List.mem_append.mp hcon with hcon | hcon
                      · exact hnr hcon
                      · rw [List.mem_singleton] at hcon
                        exact horc hcon
                · exact Or.inr (Or.inl (List.mem_append.mpr (Or.inl hin)))
                · refine Or.inr (Or.inr ⟨hun, ?_, ?_⟩)
                  · rw [hmap]
                    intro hcon
                    rcases List.mem_append.mp hcon with hcon | hcon
                    · exact hnr hcon
                    · rw [List.mem_singleton] at hcon
                      exact horc hcon
                  · rw [List.map_append]
                    intro hcon
                    rcases List.mem_append.mp hcon with hcon | hcon
                    · apply hnq
                      rw [List.map_cons, coordOf_mk, List.mem_cons]
                      exact Or.inr hcon
                    · rcases List.mem_map.mp hcon with ⟨t, ht, he⟩
                      obtain ⟨p, hp, hpe, -, hf, -⟩ := hnews t ht
                      subst hpe
                      rw [coordOf_mk, Prod.mk.injEq] at he
                      rw [he.1, he.2] at hf
                      rw [h15] at hf
                      exact Bool.noConfusion (Option.some.inj hf)
            · have hZY : falseCount B2.height B2.width vis =
                  falseCount b.height b.width vis := rfl
              rw [List.length_append]
              rw [List.length_cons] at hfuel
              omega
          · have hmemh : (r, c, dist) ∈ (r, c, dist) :: rest := List.mem_cons_self _ _
            have hbnd : r < b.height ∧ c < b.width := h3 _ hmemh
            have hnotrev : (r, c) ∉ revealed.map coordOf := h6 _ hmemh
            rw [List.map_cons, coordOf_mk, List.nodup_cons] at h4
            have hstate : b.cell_state r c = b0.cell_state r c := by
              rw [h10 r c, if_neg hnotrev]
            have hb0ne : b0.cell_state r c ≠ some CellState.Uncovered := by
              rw [← hstate]
              intro hcon
              apply hskip
              show (getMat? b.states r c).getD CellState.Covered = CellState.Uncovered
              rw [show getMat? b.states r c = some CellState.Uncovered from hcon]
              rfl
            have hSome : (b.cell_state r c).isSome := WF_isSome_state hWF hbnd.1 hbnd.2
            set B2 : Board := Board.mk b.width b.height b.mines b.cells
              (setMat b.states r c CellState.Uncovered) b.minePositions with hB2
            have hWF2 : B2.WF := by
              rcases hWF with ⟨hc1, hc2, hs1, hs2⟩
              exact ⟨hc1, hc2, (length_setMat _ _ _ _).trans hs1, mem_setMat_length hs2⟩
            have hmap : (revealed ++ [(r, c, dist)]).map coordOf =
                revealed.map coordOf ++ [(r, c)] := by
              rw [List.map_append]
              rfl
            have h10' : ∀ r' c', B2.cell_state r' c' =
                if (r', c') ∈ (revealed ++ [(r, c, dist)]).map coordOf
                then some CellState.Uncovered else b0.cell_state r' c' := by
              intro r' c'
              show getMat? (setMat b.states r c CellState.Uncovered) r' c' = _
              rw [getMat?_setMat, hmap]
              by_cases hrc : r = r' ∧ c = c'
              · rcases hrc with ⟨rfl, rfl⟩
                rw [if_pos ⟨rfl, rfl, hSome⟩, if_pos]
                exact List.mem_append.mpr (Or.inr (List.mem_singleton.mpr rfl))
              · rw [if_neg (fun hcon => hrc ⟨hcon.1, hcon.2.1⟩)]
                show b.cell_state r' c' = _
                rw [h10 r' c']
                by_cases hmem2 : (r', c') ∈ revealed.map coordOf
                · rw [if_pos hmem2, if_pos (List.mem_append.mpr (Or.inl hmem2))]
                · rw [if_neg hmem2, if_neg]
                  intro hcon
                  rcases List.mem_append.mp hcon with hcon | hcon
                  · exact hmem2 hcon
                  · rw [List.mem_singleton, Prod.mk.injEq] at hcon
                    exact hrc ⟨hcon.1.symm, hcon.2.symm⟩
            have h8' : ((revealed ++ [(r, c, dist)]).map coordOf).Nodup := by
              rw [hmap]
              exact nodup_concat_of h8 hnotrev
            have h13' : ∀ t ∈ revealed ++ [(r, c, dist)],
                b0.cell_state t.1 t.2.1 ≠ some CellState.Uncovered ∧
                (coordOf t ≠ (row0, col0) →
                  b0.cell_state t.1 t.2.1 = some CellState.Covered) ∧
                (coordOf t = (row0, col0) → t.2.2 = 0) := by
              intro t ht
              rcases List.mem_append.mp ht with ht | ht
              · exact h13 t ht
              · rw [List.mem_singleton] at ht
                subst ht
                exact ⟨hb0ne, h11 _ hmemh, h12 _ hmemh⟩
            apply ih B2 vis rest (revealed ++ [(r, c, dist)]) hWF2 hh hw
              h10' hv1 hv2
              (fun t ht => h3 t (List.mem_cons_of_mem _ ht)) h4.2
              (fun t ht => h5 t (List.mem_cons_of_mem _ ht)) ?_
              (fun t ht => h11 t (List.mem_cons_of_mem _ ht))
              (fun t ht => h12 t (List.mem_cons_of_mem _ ht))
              h15 h8' h13' ?_ ?_
            · intro t ht hcon
              rw [hmap] at hcon
              rcases List.mem_append.mp hcon with hcon | hcon
              · exact h6 t (List.mem_cons_of_mem _ ht) hcon
              · rw [List.mem_singleton] at hcon
                apply h4.1
                rw [← hcon]
                exact List.mem_map.mpr ⟨t, ht, rfl⟩
            · by_cases horc : (row0, col0) = (r, c)
              · have e1 : row0 = r := congrArg Prod.fst horc
                have e2 : col0 = c := congrArg Prod.snd horc
                subst e1
                subst e2
                have hd0 : dist = 0 := h12 _ hmemh rfl
                subst hd0
                exact Or.inr (Or.inl
                  (List.mem_append.mpr (Or.inr (List.mem_singleton.mpr rfl))))
              · rcases horig with ⟨hinq, hnr⟩ | hin | ⟨hun, hnr, hnq⟩
                · rw [List.map_cons, coordOf_mk, List.mem_cons] at hinq
                  rcases hinq with heq | hinq
                  · exact absurd heq horc
                  · refine Or.inl ⟨hinq, ?_⟩
                    rw [hmap]
                    intro hcon
                    rcases List.mem_append.mp hcon with hcon | hcon
                    · exact hnr hcon
                    · rw [List.mem_singleton] at hcon
                      exact horc hcon
                · exact Or.inr (Or.inl (List.mem_append.mpr (Or.inl hin)))
                · refine Or.inr (Or.inr ⟨hun, ?_, ?_⟩)
                  · rw [hmap]
                    intro hcon
                    rcases List.mem_append.mp hcon with hcon | hcon
                    · exact hnr hcon
                    · rw [List.mem_singleton] at hcon
                      exact horc hcon
                  · intro hcon
                    apply hnq
                    rw [List.map_cons, coordOf_mk, List.mem_cons]
                    exact Or.inr hcon
            · have hZY : falseCount B2.height B2.width vis =
                  falseCount b.height b.width vis := rfl
              rw [List.length_cons] at hfuel
              omega

/-- A flood fill started (with any fuel ≥ 2) on a cell that is not already
Uncovered and whose content is not `Empty` reveals exactly that cell and
stops. -/
theorem floodLoop_single (b : Board) (row col dist m : Nat)
    (vis : List (List Bool)) (revealed : List (Nat × Nat × Nat))
    (hskip : ¬ Board.getSD b row col = CellState.Uncovered)
    (hnotempty : Board.getCD b row col ≠ Cell.Empty) :
    (Board.floodLoop (m + 1 + 1) b vis [(row, col, dist)] revealed).2 =
      revealed ++ [(row, col, dist)] := by
  unfold Board.floodLoop
  dsimp only
  rw [if_neg hskip]
  have h2 : ¬ Board.getCD
      (Board.mk b.width b.height b.mines b.cells
        (setMat b.states row col CellState.Uncovered) b.minePositions)
      row col = Cell.Empty := hnotempty
  rw [if_neg h2]
  rfl

/-- C3 (amended): for every well-formed board and in-bounds start, the
flood fill succeeds and returns a sequence in which every triple had a
state other than Uncovered immediately before being revealed — Covered for
every non-origin triple (only the origin may be Flagged) — each coordinate
appears at most once, the origin appears (with distance 0) exactly when its
state at call time is not Uncovered, and a non-Uncovered `Number` origin
yields exactly the single origin triple. -/
theorem flood_fill_wave_spec (b : Board) (hWF : b.WF) (row col : Nat)
    (hr : row < b.height) (hc : col < b.width) :
    ∃ b2 revealed, b.flood_fill_wave row col = some (b2, revealed) ∧
      (∀ r c d, (r, c, d) ∈ revealed →
        b.cell_state r c ≠ some CellState.Uncovered ∧
        ((r, c) ≠ (row, col) → b.cell_state r c = some CellState.Covered) ∧
        ((r, c) = (row, col) → d = 0)) ∧
      (revealed.map coordOf).Nodup ∧
      ((row, col, 0) ∈ revealed ↔
        b.cell_state row col ≠ some CellState.Uncovered) ∧
      (∀ n, b.cell row col = some (Cell.Number n) →
        b.cell_state row col ≠ some CellState.Uncovered →
        revealed = [(row, col, 0)]) := by
  have hvis1 : (setMat (List.replicate b.height (List.replicate b.width false))
      row col true).length = b.height := by
    rw [length_setMat, List.length_replicate]
  have hvis2 : ∀ rowL ∈ setMat (List.replicate b.height
      (List.replicate b.width false)) row col true, rowL.length = b.width := by
    apply mem_setMat_length
    intro rowL hmem
    rw [List.eq_of_mem_replicate hmem, List.length_replicate]
  have hvtrue : getMat? (setMat (List.replicate b.height
      (List.replicate b.width false)) row col true) row col = some true := by
    rw [getMat?_setMat, if_pos]
    refine ⟨rfl, rfl, ?_⟩
    rw [getMat?_replicateGrid, if_pos ⟨hr, hc⟩]
    rfl
  have hspec := floodLoop_spec b row col (b.height * b.width + 1) b
    (setMat (List.replicate b.height (List.replicate b.width false)) row col true)
    [(row, col, 0)] [] hWF rfl rfl
    (by
      intro r c
      rw [if_neg]
      simp)
    hvis1 hvis2
    (by
      intro t ht
      rw [List.mem_singleton] at ht
      subst ht
      exact ⟨hr, hc⟩)
    (by simp)
    (by
      intro t ht
      rw [List.mem_singleton] at ht
      subst ht
      exact hvtrue)
    (by
      intro t ht
      simp)
    (by
      intro t ht hne
      rw [List.mem_singleton] at ht
      subst ht
      exact absurd rfl hne)
    (by
      intro t ht he
      rw [List.mem_singleton] at ht
      subst ht
      rfl)
    hvtrue
    (by simp)
    (by
      intro t ht
      simp at ht)
    (Or.inl ⟨by
      rw [List.map_cons, coordOf_mk]
      exact List.mem_cons_self _ _, by simp⟩)
    (by
      have hfc := falseCount_le b.height b.width
        (setMat (List.replicate b.height (List.replicate b.width false)) row col true)
      rw [List.length_cons, List.length_nil]
      omega)
  obtain ⟨hP, hnodup, hback⟩ := hspec
  unfold Board.flood_fill_wave
  rw [if_pos ⟨hr, hc⟩]
  refine ⟨(Board.floodLoop (b.height * b.width + 1) b
      (setMat (List.replicate b.height (List.replicate b.width false)) row col true)
      [(row, col, 0)] []).1,
    (Board.floodLoop (b.height * b.width + 1) b
      (setMat (List.replicate b.height (List.replicate b.width false)) row col true)
      [(row, col, 0)] []).2, rfl, ?_, hnodup, ⟨?_, hback⟩, ?_⟩
  · intro r c d hmem
    exact hP (r, c, d) hmem
  · intro hmem
    exact (hP (row, col, 0) hmem).1
  · intro n hcn hsn
    have hpos : 1 ≤ b.height * b.width :=
      Nat.mul_pos (by omega) (by omega)
    obtain ⟨m, hm⟩ : ∃ m, b.height * b.width + 1 = m + 1 + 1 :=
      ⟨b.height * b.width - 1, by omega⟩
    rw [hm, floodLoop_single]
    · rw [List.nil_append]
    · intro hcon
      exact hsn (getD_covered_uncovered hcon)
    · show (getMat? b.cells row col).getD Cell.Empty ≠ Cell.Empty
      rw [show getMat? b.cells row col = some (Cell.Number n) from hcn]
      intro hcon
      exact Cell.noConfusion (Option.getD_some ▸ hcon)

/-- Witness for C3's amended theorem on a fresh 2×2 board at origin (0,0). -/
theorem flood_fill_wave_spec_witness :
    ∃ b2 revealed,
      (Board.new 2 2 0).flood_fill_wave 0 0 = some (b2, revealed) ∧
      (∀ r c d, (r, c, d) ∈ revealed →
        (Board.new 2 2 0).cell_state r c ≠ some CellState.Uncovered ∧
        ((r, c) ≠ (0, 0) →
          (Board.new 2 2 0).cell_state r c = some CellState.Covered) ∧
        ((r, c) = (0, 0) → d = 0)) ∧
      (revealed.map coordOf).Nodup ∧
      ((0, 0, 0) ∈ revealed ↔
        (Board.new 2 2 0).cell_state 0 0 ≠ some CellState.Uncovered) ∧
      (∀ n, (Board.new 2 2 0).cell 0 0 = some (Cell.Number n) →
        (Board.new 2 2 0).cell_state 0 0 ≠ some CellState.Uncovered →
        revealed = [(0, 0, 0)]) :=
  flood_fill_wave_spec (Board.new 2 2 0) (by decide) 0 0 (by decide) (by decide)

/-- C3 counterexample: on a 1×1 board whose unique cell is already
Uncovered, `flood_fill_wave(0,0)` returns the empty sequence — the origin
is not included, refuting "the origin is always included with distance
0". -/
theorem flood_origin_not_included :
    ((Board.new 1 1 0).uncover_cell 0 0).flood_fill_wave 0 0 =
      some ((Board.new 1 1 0).uncover_cell 0 0, []) := by decide
